import Mathlib

/-!
# Verification of the Blarkly session state engine

Shallow embedding of the card-game backend in `functions/src/index.ts`:
the High/Low guess-resolution transaction (`makeGuess`), the presence
tracker (`reportPresence`, `pruneStaleHighLowPlayers`), and the Old Maid
engine (`startOldMaidSession`, `drawOldMaidCard`, `shuffleOldMaidHand`,
`reportOldMaidPresence`, `pruneOldMaidPlayersInTransaction`).

Conventions of the embedding:
* Firestore timestamps are modelled as integer seconds (`Int`); every
  transaction takes the current time `now` as a parameter, standing for
  `admin.firestore.Timestamp.now()` / the committed value of
  `serverTimestamp()`.
* `Math.random`-driven shuffles are modelled by passing the shuffled list
  as a parameter (theorems constrain it to be a permutation of its input),
  and the random draw index by a `Nat` parameter (theorems constrain it to
  be in range, which `Math.floor(Math.random() * len)` always is).
* A transaction is a pure function from the snapshot state (plus inputs)
  to the committed state and a typed result; business-rule failures commit
  the partial writes made before the failure, exactly as the source does.
* The JavaScript remainder operator `%` is `Int.tmod` (both truncate
  toward zero); out-of-range array reads yield `none` like `undefined`.
-/

namespace Blarkly

/-- Mirrors `STALE_PLAYER_SECONDS = 3 * 60` in `index.ts`. -/
def STALE_PLAYER_SECONDS : Int := 3 * 60

/-- Mirrors `WAITING_ROOM_PLAYER_SECONDS = 5 * 60`. -/
def WAITING_ROOM_PLAYER_SECONDS : Int := 5 * 60

/-- Mirrors `IDLE_WARNING_BUFFER_SECONDS = 30`. -/
def IDLE_WARNING_BUFFER_SECONDS : Int := 30

/-- Mirrors `STALE_GAME_SECONDS = 60 * 60`. -/
def STALE_GAME_SECONDS : Int := 60 * 60

/-- Mirrors `STALLED_ACTIVE_OLD_MAID_SECONDS = 5 * 60`. -/
def STALLED_ACTIVE_OLD_MAID_SECONDS : Int := 5 * 60

/-- Mirrors `SHUFFLE_LOCK_TTL_MS = 5_000`. -/
def SHUFFLE_LOCK_TTL_MS : Int := 5000

/-- Card suits of `index.ts` (`Card['suit']`), including the Joker suit. -/
inductive Suit
  | hearts
  | diamonds
  | clubs
  | spades
  | joker
deriving DecidableEq, Repr

/-- `Card` of `index.ts`: rank 0 (Joker) .. 13, suit and a display label. -/
structure Card where
  rank : Nat
  suit : Suit
  label : String
deriving DecidableEq, Repr

/-- `GuessChoice` of `index.ts`. -/
inductive GuessChoice
  | higher
  | lower
deriving DecidableEq, Repr

/-- `RANK_LABELS` / `rankToLabel` of `index.ts`. -/
def rankToLabel (rank : Nat) : String :=
  if rank = 1 then "A"
  else if rank = 11 then "J"
  else if rank = 12 then "Q"
  else if rank = 13 then "K"
  else toString rank

/-- Suit symbols of the `SUITS` table in `index.ts`. -/
def suitSymbol : Suit → String
  | .hearts => "♥"
  | .diamonds => "♦"
  | .clubs => "♣"
  | .spades => "♠"
  | .joker => ""

/-- The four non-joker suits in the order of the `SUITS` table. -/
def suitOrder : List Suit := [.hearts, .diamonds, .clubs, .spades]

/-- `generateDeck` of `index.ts`: 13 ranks for each of the four suits. -/
def generateDeck : List Card :=
  suitOrder.flatMap fun s =>
    (List.range 13).map fun i =>
      { rank := i + 1, suit := s, label := rankToLabel (i + 1) ++ suitSymbol s }

/-- `JOKER_CARD` of `index.ts`. -/
def jokerCard : Card := { rank := 0, suit := .joker, label := "🃏" }

/-- `compareCards` of `index.ts`: 1 if `next` outranks `previous`, -1 if it
is lower, 0 on a tie. -/
def compareCards (previous next : Card) : Int :=
  if next.rank > previous.rank then 1
  else if next.rank < previous.rank then -1
  else 0

/-- `evaluateGuess` of `index.ts`: a tie counts as correct, otherwise the
guess must match the comparison's direction. -/
def evaluateGuess (guess : GuessChoice) (previous next : Card) : Bool :=
  let comparison := compareCards previous next
  if comparison = 0 then true
  else match guess with
    | .higher => decide (comparison > 0)
    | .lower => decide (comparison < 0)

/-! ## High/Low data model -/

/-- `Player` of `index.ts` (High/Low). -/
structure Player where
  name : String
  displayName : Option String
  isActive : Bool
  isOnline : Bool
deriving DecidableEq, Repr

/-- Session status (`'waiting' | 'active' | 'complete'`). -/
inductive SessionStatus
  | waiting
  | active
  | complete
deriving DecidableEq, Repr

/-- `GameOutcome` (`'players' | 'deck' | null`); the `null` case is
`Option.none` at the use sites. -/
inductive GameOutcome
  | players
  | deck
deriving DecidableEq, Repr

/-- `TablePile` of `index.ts`. -/
structure TablePile where
  id : String
  row : Nat
  column : Nat
  cards : List Card
  isFaceUp : Bool
deriving DecidableEq, Repr

/-- The `playerLastSeen` map, committed timestamps only (a `FieldValue`
sentinel is never observed inside a transaction read). -/
abbrev LastSeenMap := List (String × Int)

/-- Firestore map lookup. -/
def lookupSeen (m : LastSeenMap) (name : String) : Option Int :=
  (m.find? (fun e => e.1 == name)).map (·.2)

/-- Firestore field-path write `playerLastSeen.<name> = t`. -/
def setSeen (m : LastSeenMap) (name : String) (t : Int) : LastSeenMap :=
  if m.any (fun e => e.1 == name) then
    m.map (fun e => if e.1 == name then (e.1, t) else e)
  else m ++ [(name, t)]

/-- Deleting the entries of removed players from `playerLastSeen`. -/
def deleteSeen (m : LastSeenMap) (names : List String) : LastSeenMap :=
  m.filter (fun e => !(names.contains e.1))

/-- `GameSessionRecord` of `index.ts` (the High/Low session document,
without the document id). `acesHigh` is the constant `settings` field. -/
structure GameSessionRecord where
  players : List Player
  deck : List Card
  piles : List TablePile
  turnIndex : Int
  turnStartedAt : Int
  status : SessionStatus
  acesHigh : Bool
  createdAt : Int
  updatedAt : Int
  playerLastSeen : LastSeenMap
  outcome : Option GameOutcome
deriving DecidableEq, Repr

/-- Placeholder for an out-of-range read; never observed on the paths the
theorems describe. -/
def defaultPlayer : Player :=
  { name := "", displayName := none, isActive := false, isOnline := false }

/-- Placeholder pile for an out-of-range read. -/
def defaultPile : TablePile :=
  { id := "", row := 0, column := 0, cards := [], isFaceUp := false }

/-- Placeholder card for an out-of-range read. -/
def defaultCard : Card := { rank := 0, suit := .joker, label := "" }

/-- JavaScript array indexing with a possibly negative index:
`arr[i]` is `undefined` (here `none`) outside the range. -/
def getAtInt (l : List α) (i : Int) : Option α :=
  if 0 ≤ i then l[i.toNat]? else none

/-! ## High/Low helper functions of `index.ts` -/

/-- ASCII case folding of JavaScript `toLowerCase()` (player names in
this system are plain ASCII identifiers). -/
def jsCharToLower (c : Char) : Char :=
  if 'A' ≤ c ∧ c ≤ 'Z' then Char.ofNat (c.toNat + 32) else c

/-- JavaScript `toLowerCase()`. -/
def jsToLower (s : String) : String := ⟨s.data.map jsCharToLower⟩

/-- The whitespace class stripped by JavaScript `trim()`. -/
def isJsSpace (c : Char) : Bool := c = ' ' || c = '\t' || c = '\n' || c = '\r'

/-- JavaScript `trim()`: strip leading and trailing whitespace. -/
def jsTrim (s : String) : String :=
  ⟨((s.data.dropWhile isJsSpace).reverse.dropWhile isJsSpace).reverse⟩

/-- Name part of `normalizePlayerList`: `name.trim().toLowerCase()`. -/
def normalizedName (p : Player) : String := jsToLower (jsTrim p.name)

/-- Display-name part of `normalizePlayerList`:
`(displayName.trim() truthy) || trimmed || normalizedName`. -/
def normalizedDisplayName (p : Player) : String :=
  let trimmed := jsTrim p.name
  let fallback := if trimmed ≠ "" then trimmed else jsToLower trimmed
  match p.displayName with
  | some d => if jsTrim d ≠ "" then jsTrim d else fallback
  | none => fallback

/-- One player after `normalizePlayerList` (the `typeof` boolean checks are
vacuous in the typed model). -/
def normalizePlayer (p : Player) : Player :=
  { name := normalizedName p, displayName := some (normalizedDisplayName p),
    isActive := p.isActive, isOnline := p.isOnline }

/-- The per-player `changed` test of `normalizePlayerList`. -/
def playerChanged (p : Player) : Bool :=
  normalizedName p != p.name || normalizedDisplayName p != p.displayName.getD ""

/-- `normalizePlayerList(...).players`. -/
def normalizePlayers (players : List Player) : List Player :=
  players.map normalizePlayer

/-- `normalizePlayerList(...).changed`. -/
def playersChanged (players : List Player) : Bool :=
  players.any playerChanged

/-- `findPlayerIndex` of `index.ts` (`-1` becomes `none`). -/
def findPlayerIndex (players : List Player) (playerName : String) : Option Nat :=
  players.findIdx? (fun p => p.name == playerName)

/-- The eligibility test of `findNextEligibleIndex`:
`player.isActive && (requireOnline ? player.isOnline : true)`. -/
def eligiblePlayer (requireOnline : Bool) (p : Player) : Bool :=
  p.isActive && (!requireOnline || p.isOnline)

/-- The `for (offset = 1; offset <= players.length; ...)` scan of
`findNextEligibleIndex`, with the remaining iteration count explicit. -/
def findNextEligibleFrom (players : List Player) (currentIndex : Int)
    (requireOnline : Bool) : Nat → Nat → Option Nat
  | _, 0 => none
  | offset, remaining + 1 =>
    let candidate := (currentIndex + offset).tmod players.length
    match getAtInt players candidate with
    | none => findNextEligibleFrom players currentIndex requireOnline (offset + 1) remaining
    | some p =>
      if eligiblePlayer requireOnline p then some candidate.toNat
      else findNextEligibleFrom players currentIndex requireOnline (offset + 1) remaining

/-- `findNextEligibleIndex` of `index.ts`, including the optional `seed`
short-circuit. -/
def findNextEligibleIndex (players : List Player) (currentIndex : Int)
    (requireOnline : Bool) (seed : Option Int) : Option Nat :=
  if players.length = 0 then none
  else
    let seeded : Option Nat :=
      match seed with
      | some s =>
        let si := s.tmod players.length
        match getAtInt players si with
        | some p => if eligiblePlayer requireOnline p then some si.toNat else none
        | none => none
      | none => none
    match seeded with
    | some k => some k
    | none => findNextEligibleFrom players currentIndex requireOnline 1 players.length

/-- `ensureTurnIndex` of `index.ts`. -/
def ensureTurnIndex (players : List Player) (preferred : Int)
    (requireOnline : Bool) : Option Nat :=
  if players.length = 0 then none
  else
    let normalizedIndex := preferred.tmod players.length
    let keep : Option Nat :=
      if 0 ≤ normalizedIndex ∧ normalizedIndex < players.length then
        match getAtInt players normalizedIndex with
        | some p =>
          if eligiblePlayer requireOnline p then some normalizedIndex.toNat else none
        | none => none
      else none
    match keep with
    | some k => some k
    | none => findNextEligibleIndex players normalizedIndex requireOnline none

/-- `resolveLastSeenSeconds` of `index.ts`: a missing entry is `none`. -/
def resolveLastSeenSeconds (m : LastSeenMap) (name : String) : Option Int :=
  lookupSeen m name

/-- `pruneStaleHighLowPlayers` of `index.ts`: drops players whose
last-seen entry is missing or older than `STALE_PLAYER_SECONDS`; every
retained player is rewritten with `isOnline := secondsAgo ≤ threshold`. -/
def pruneStaleHighLowPlayers (players : List Player) (lastSeen : LastSeenMap)
    (nowSeconds : Int) : List Player × List String :=
  match players with
  | [] => ([], [])
  | p :: rest =>
    let pr := pruneStaleHighLowPlayers rest lastSeen nowSeconds
    match resolveLastSeenSeconds lastSeen p.name with
    | none => (pr.1, p.name :: pr.2)
    | some t =>
      let secondsAgo := nowSeconds - t
      if secondsAgo > STALE_PLAYER_SECONDS then (pr.1, p.name :: pr.2)
      else ({ p with isOnline := decide (secondsAgo ≤ STALE_PLAYER_SECONDS) } :: pr.1, pr.2)

/-- `prunePlayersInTransaction` of `index.ts`: commits the filtered list
and trimmed `playerLastSeen` only when someone was removed, and returns
the filtered working list either way. -/
def prunePlayersInTransaction (now : Int) (st : GameSessionRecord)
    (players : List Player) : GameSessionRecord × List Player × List String :=
  let pr := pruneStaleHighLowPlayers players st.playerLastSeen now
  if pr.2 = [] then (st, pr.1, pr.2)
  else
    ({ st with players := pr.1,
               playerLastSeen := deleteSeen st.playerLastSeen pr.2,
               updatedAt := now }, pr.1, pr.2)

/-- `GRID_COLUMNS` of `index.ts`. -/
def GRID_COLUMNS : Nat := 3

/-- `TOTAL_PILES = GRID_ROWS * GRID_COLUMNS = 9`. -/
def TOTAL_PILES : Nat := 9

/-- `createInitialPilesState` of `index.ts`, with the Fisher–Yates result
passed in as `shuffled`: first 9 cards seed the piles, the rest is the
draw deck. -/
def createInitialPilesState (shuffled : List Card) : List Card × List TablePile :=
  let initialCards := shuffled.take TOTAL_PILES
  let remainingDeck := shuffled.drop TOTAL_PILES
  let piles := initialCards.enum.map fun ic =>
    { id := "pile-" ++ toString ic.1, row := ic.1 / GRID_COLUMNS,
      column := ic.1 % GRID_COLUMNS, cards := [ic.2], isFaceUp := true : TablePile }
  (remainingDeck, piles)

/-- `refreshHighLowIfIdle` of `index.ts`: resets the session when
`updatedAt` is missing/zero (falsy) or older than `STALE_GAME_SECONDS`;
`shuffled` stands for the fresh `shuffle(generateDeck())`. -/
def refreshHighLowIfIdle (now : Int) (shuffled : List Card)
    (st : GameSessionRecord) : GameSessionRecord :=
  if st.updatedAt ≠ 0 ∧ now - st.updatedAt ≤ STALE_GAME_SECONDS then st
  else
    let dp := createInitialPilesState shuffled
    { st with players := [], playerLastSeen := [], deck := dp.1, piles := dp.2,
              turnIndex := 0, turnStartedAt := now, updatedAt := now,
              status := .waiting, outcome := none }

/-! ## High/Low `makeGuess` -/

/-- The state of the tie-break draw loop of `makeGuess` when it exits. -/
structure DrawLoopResult where
  drawn : List Card
  deckAfter : List Card
  resolved : Bool
  correct : Bool
deriving DecidableEq, Repr

/-- The `while (!guessResolved)` loop of `makeGuess`: pop the top deck
card, compare to the previous top; on a tie continue with the new card as
reference, otherwise resolve the guess.  On deck exhaustion the loop ends
unresolved with `correctGuess` still `true` (the source forces `true`
afterwards anyway). -/
def drawLoop (guess : GuessChoice) (referenceCard : Card) :
    List Card → DrawLoopResult
  | [] => { drawn := [], deckAfter := [], resolved := false, correct := true }
  | card :: rest =>
    if compareCards referenceCard card = 0 then
      let r := drawLoop guess card rest
      { r with drawn := card :: r.drawn }
    else
      { drawn := [card], deckAfter := rest, resolved := true,
        correct := evaluateGuess guess referenceCard card }

/-- `GuessResult` of `index.ts`. -/
structure GuessResultRec where
  correct : Bool
  drawnCard : Option Card
  drawnCards : List Card
  pileIdOut : String
  pileFaceUp : Bool
  nextPlayer : Option String
  remainingCards : Nat
  outcomeOut : Option GameOutcome
deriving DecidableEq, Repr

/-- The resolution-and-commit stage of the `makeGuess` transaction (the
code after all guards have passed): run the tie-break draw loop against
the target pile, update the pile, decide status and outcome, advance the
turn and build the `GuessResult`.  `st3` is the session state after the
idle-refresh/normalization/pruning writes and `players` the pruned
working roster. -/
def makeGuessDraw (now : Int) (st3 : GameSessionRecord) (players : List Player)
    (guess : GuessChoice) (currentIndex pileIndex : Nat) :
    GameSessionRecord × Except String GuessResultRec :=
  let targetPile := st3.piles.getD pileIndex defaultPile
  let loop := drawLoop guess (targetPile.cards.getLastD defaultCard) st3.deck
  let newPile := { targetPile with
    cards := targetPile.cards ++ loop.drawn
    isFaceUp := if loop.resolved && !loop.correct then false
                else targetPile.isFaceUp }
  let piles2 := st3.piles.set pileIndex newPile
  let status1 := if st3.status = .waiting then SessionStatus.active
                 else st3.status
  let openPiles := (piles2.filter (fun pile => pile.isFaceUp)).length
  let deckEmpty := loop.deckAfter.isEmpty
  let statusOutcome : SessionStatus × Option GameOutcome :=
    if !loop.resolved && deckEmpty then
      if openPiles > 0 then (.complete, some .players)
      else (.complete, some .deck)
    else
      if openPiles = 0 then (.complete, some .deck)
      else if deckEmpty then (.complete, some .players)
      else (status1, st3.outcome)
  let nextIndex :=
    (findNextEligibleIndex players (currentIndex : Int) true none).getD
      currentIndex
  let nextPlayerName : Option String :=
    if statusOutcome.1 = .complete then none
    else (players[nextIndex]?).map (·.name)
  let nextTurnStartedAt :=
    if statusOutcome.1 = .complete then st3.turnStartedAt else now
  let finalCard : Option Card :=
    match loop.drawn.getLast? with
    | some c => some c
    | none => newPile.cards.getLast?
  ({ st3 with
     players := players
     piles := piles2
     deck := loop.deckAfter
     turnIndex := (nextIndex : Int)
     status := statusOutcome.1
     outcome := statusOutcome.2
     turnStartedAt := nextTurnStartedAt
     updatedAt := now },
   .ok { correct := loop.correct, drawnCard := finalCard,
         drawnCards := loop.drawn, pileIdOut := newPile.id,
         pileFaceUp := newPile.isFaceUp,
         nextPlayer := nextPlayerName,
         remainingCards := loop.deckAfter.length,
         outcomeOut := if statusOutcome.1 = .complete
                       then statusOutcome.2 else none })

/-- The `makeGuess` transaction of `index.ts` (the callable wrapper's
input validation — guess shape, blank name — happens before the
transaction and is outside the model).  Returns the committed session
state and the typed result; business-rule failures commit the partial
writes (idle refresh, normalization, pruning) made before them. -/
def makeGuess (now : Int) (shuffled : List Card) (st : GameSessionRecord)
    (playerName : String) (guess : GuessChoice) (pileId : String) :
    GameSessionRecord × Except String GuessResultRec :=
  let st1 := refreshHighLowIfIdle now shuffled st
  if st1.status = .complete then (st1, .error "session_complete")
  else
    let normalized := normalizePlayers st1.players
    let st2 := if playersChanged st1.players then
        { st1 with players := normalized, updatedAt := now } else st1
    let pr := prunePlayersInTransaction now st2 normalized
    let st3 := pr.1
    let players := pr.2.1
    if players.length = 0 then (st3, .error "no_players")
    else
      let firstOnline := players.findIdx? (fun p => p.isActive && p.isOnline)
      let currentIndex? : Option Nat :=
        match ensureTurnIndex players st3.turnIndex true with
        | some k => some k
        | none =>
          match firstOnline with
          | some k => some k
          | none => ensureTurnIndex players st3.turnIndex false
      match currentIndex? with
      | none => (st3, .error "no_active_players")
      | some currentIndex =>
        let currentPlayer := players.getD currentIndex defaultPlayer
        if jsToLower currentPlayer.name ≠ jsToLower playerName then
          (st3, .error "not_your_turn")
        else if !currentPlayer.isActive then (st3, .error "player_inactive")
        else if !currentPlayer.isOnline then (st3, .error "player_offline")
        else if st3.piles.length = 0 then (st3, .error "no_piles")
        else
          match st3.piles.findIdx? (fun pile => pile.id == pileId) with
          | none => (st3, .error "invalid_pile")
          | some pileIndex =>
            let targetPile := st3.piles.getD pileIndex defaultPile
            if !targetPile.isFaceUp then (st3, .error "pile_locked")
            else if targetPile.cards.length = 0 then (st3, .error "pile_empty")
            else if st3.deck.length = 0 then (st3, .error "deck_empty")
            else makeGuessDraw now st3 players guess currentIndex pileIndex

/-! ## High/Low `reportPresence` -/

/-- Log entry kinds of `GameLogEntry['type']`. -/
inductive LogType
  | guessLog
  | turn
  | connect
  | disconnect
  | system
deriving DecidableEq, Repr

/-- A queued log entry (`LogQueueEntry` of `index.ts`). -/
structure LogEntry where
  message : String
  logType : LogType
  player : Option String
deriving DecidableEq, Repr

/-- `player.displayName ?? player.name`. -/
def displayOrName (p : Player) : String := p.displayName.getD p.name

/-- The `reportPresence` transaction of `index.ts`: heartbeat with an
unchanged flag refreshes only the timestamps, a flag transition rewrites
the roster, recomputes the turn index and queues presence logs.  Returns
the committed state, the typed result and the queued log entries. -/
def reportPresence (now : Int) (shuffled : List Card) (st : GameSessionRecord)
    (playerName : String) (isOnline : Bool) :
    GameSessionRecord × Except String Unit × List LogEntry :=
  let st1 := refreshHighLowIfIdle now shuffled st
  let st1b := refreshHighLowIfIdle now shuffled st1
  let normalized := normalizePlayers st1b.players
  let st2 := if playersChanged st1b.players then
      { st1b with players := normalized, updatedAt := now } else st1b
  let pr := prunePlayersInTransaction now st2 normalized
  let st3 := pr.1
  let players := pr.2.1
  match findPlayerIndex players playerName with
  | none => (st3, .error "player_not_found", [])
  | some targetIndex =>
    let target := players.getD targetIndex defaultPlayer
    let previouslyOnline := target.isOnline
    if previouslyOnline = isOnline then
      ({ st3 with updatedAt := now,
                  playerLastSeen := setSeen st3.playerLastSeen playerName now },
       .ok (), [])
    else
      let players1 := players.set targetIndex { target with isOnline := isOnline }
      let target1 := players1.getD targetIndex defaultPlayer
      let previousTurnIndex := st3.turnIndex
      let firstOnlineIndex := players1.findIdx? (fun p => p.isActive && p.isOnline)
      let t2 : Option Nat :=
        match ensureTurnIndex players1 previousTurnIndex true with
        | some k => some k
        | none => firstOnlineIndex
      let turnIndex0 : Nat :=
        match t2 with
        | some k => k
        | none => (ensureTurnIndex players1 previousTurnIndex false).getD 0
      let branch : Nat × List LogEntry :=
        if !isOnline && (turnIndex0 == targetIndex) then
          match findNextEligibleIndex players1 (turnIndex0 : Int) true
              (some (targetIndex : Int)) with
          | some nextOnline =>
            let nextPlayer := players1.getD nextOnline defaultPlayer
            (nextOnline,
             [{ message := displayOrName target1 ++
                  " went offline; advancing turn to " ++
                  displayOrName nextPlayer ++ ".",
                logType := .turn, player := some nextPlayer.name }])
          | none =>
            (turnIndex0,
             [{ message := displayOrName target1 ++
                  " went offline. Waiting for reconnection.",
                logType := .disconnect, player := some target1.name }])
        else if isOnline then
          let logsOn : List LogEntry :=
            [{ message := displayOrName target1 ++ " came online.",
               logType := .connect, player := some target1.name }]
          match ensureTurnIndex players1 (turnIndex0 : Int) true with
          | some corrected => (corrected, logsOn)
          | none => (turnIndex0, logsOn)
        else (turnIndex0, [])
      let turnIndexF := branch.1
      let turnStartUpdate :=
        if (turnIndexF : Int) ≠ previousTurnIndex then now else st3.turnStartedAt
      ({ st3 with players := players1, turnIndex := (turnIndexF : Int),
                  turnStartedAt := turnStartUpdate, updatedAt := now,
                  playerLastSeen := setSeen st3.playerLastSeen playerName now },
       .ok (), branch.2)

/-! ## Old Maid data model -/

/-- `OldMaidPairRecord` of `index.ts`: one discarded pair. -/
structure OldMaidPairRecord where
  cards : List Card
deriving DecidableEq, Repr

/-- `OldMaidPlayer` of `index.ts` (`idleWarning ?? false` is a plain
`Bool` here). -/
structure OldMaidPlayer where
  name : String
  displayName : Option String
  hand : List Card
  discards : List OldMaidPairRecord
  isOnline : Bool
  isSafe : Bool
  idleWarning : Bool
deriving DecidableEq, Repr

/-- `OldMaidSessionRecord` of `index.ts`; `shuffleLock` is
`(player, expiresAt in milliseconds)`. -/
structure OldMaidSessionRecord where
  status : SessionStatus
  players : List OldMaidPlayer
  turnIndex : Int
  createdAt : Int
  updatedAt : Int
  loser : Option String
  playerLastSeen : LastSeenMap
  shuffleLock : Option (String × Int)
deriving DecidableEq, Repr

/-- Placeholder for an out-of-range read. -/
def defaultOldMaidPlayer : OldMaidPlayer :=
  { name := "", displayName := none, hand := [], discards := [],
    isOnline := false, isSafe := false, idleWarning := false }

/-- `buildOldMaidDeck` before the shuffle: the 52-card deck without the
Queen of Clubs, plus the Joker (52 cards in circulation). -/
def oldMaidBaseDeck : List Card :=
  (generateDeck.filter (fun c => !(c.rank == 12 && c.suit == Suit.clubs))) ++ [jokerCard]

/-! ## Old Maid helper functions of `index.ts` -/

/-- One step of the `byRank` reduce of `resolveOldMaidPairs`: insert a
card into its rank bucket, preserving first-occurrence bucket order (as a
JavaScript `Map` does). -/
def addToRankGroups (groups : List (Nat × List Card)) (c : Card) :
    List (Nat × List Card) :=
  if groups.any (fun g => g.1 == c.rank) then
    groups.map (fun g => if g.1 == c.rank then (g.1, g.2 ++ [c]) else g)
  else groups ++ [(c.rank, [c])]

/-- The `byRank` map of `resolveOldMaidPairs`. -/
def rankGroups (cards : List Card) : List (Nat × List Card) :=
  cards.foldl addToRankGroups []

/-- The `while (stack.length >= 2) pairs.push([stack.pop(), stack.pop()])`
loop, expressed on the reversed stack: consecutive pairs off the top, and
the bottom card left over when the count is odd. -/
def pairsFromRev : List Card → List OldMaidPairRecord × Option Card
  | [] => ([], none)
  | [a] => ([], some a)
  | a :: b :: rest =>
    let pr := pairsFromRev rest
    ({ cards := [a, b] } :: pr.1, pr.2)

/-- `resolveOldMaidPairs` of `index.ts`: jokers never pair; each rank
bucket is drained into pairs with at most one leftover single returned to
the hand.  Returns `(remaining, pairs)`. -/
def resolveOldMaidPairs (hand : List Card) :
    List Card × List OldMaidPairRecord :=
  let jokers := hand.filter (fun c => c.suit == Suit.joker)
  let normalCards := hand.filter (fun c => !(c.suit == Suit.joker))
  let groups := rankGroups normalCards
  let step := groups.foldl
    (fun acc g =>
      let pr := pairsFromRev g.2.reverse
      (acc.1 ++ pr.1, acc.2 ++ pr.2.toList))
    (([] : List OldMaidPairRecord), ([] : List Card))
  (jokers ++ step.2, step.1)

/-- The `for (offset = 1; offset <= players.length; ...)` scan of
`findNextPlayerWithCards`. -/
def findNextPlayerWithCardsFrom (players : List OldMaidPlayer)
    (startIndex : Nat) : Nat → Nat → Option Nat
  | _, 0 => none
  | offset, rem + 1 =>
    let candidate := (startIndex + offset) % players.length
    match players[candidate]? with
    | some p =>
      if p.hand.length != 0 then some candidate
      else findNextPlayerWithCardsFrom players startIndex (offset + 1) rem
    | none => findNextPlayerWithCardsFrom players startIndex (offset + 1) rem

/-- `findNextPlayerWithCards` of `index.ts`: the next index after
`startIndex`, scanning circularly, whose player still holds cards (the
scan can come back around to `startIndex` itself). -/
def findNextPlayerWithCards (players : List OldMaidPlayer)
    (startIndex : Nat) : Option Nat :=
  if players.length = 0 then none
  else findNextPlayerWithCardsFrom players startIndex 1 players.length

/-- `pruneOldMaidPlayers` of `index.ts`: returns
`(filtered, removed, changed)`; a player is removed when their last-seen
entry is missing or older than the threshold, and retained players get
their `idleWarning` flag recomputed against the warning window. -/
def pruneOldMaidPlayers (players : List OldMaidPlayer) (lastSeen : LastSeenMap)
    (nowSeconds staleThresholdSeconds : Int) :
    List OldMaidPlayer × List String × Bool :=
  match players with
  | [] => ([], [], false)
  | p :: rest =>
    let pr := pruneOldMaidPlayers rest lastSeen nowSeconds staleThresholdSeconds
    let warningThreshold := max 10 (staleThresholdSeconds - IDLE_WARNING_BUFFER_SECONDS)
    match resolveLastSeenSeconds lastSeen p.name with
    | none => (pr.1, p.name :: pr.2.1, pr.2.2)
    | some t =>
      if nowSeconds - t > staleThresholdSeconds then (pr.1, p.name :: pr.2.1, pr.2.2)
      else
        let idleElapsed := nowSeconds - t
        let shouldWarn := decide (idleElapsed ≥ warningThreshold) &&
          decide (idleElapsed ≤ staleThresholdSeconds)
        let keep := if shouldWarn == p.idleWarning then p
                    else { p with idleWarning := shouldWarn }
        (keep :: pr.1, pr.2.1, pr.2.2 || (p.idleWarning != shouldWarn))

/-- `pruneOldMaidPlayersInTransaction` of `index.ts`: threshold depends on
status; commits nothing when nothing was removed or changed; during an
active game, completes the session (declaring the sole survivor — or
nobody — the loser) when at most one player is left, else renormalizes the
turn index.  Returns the committed state and the removal count. -/
def pruneOldMaidPlayersInTransaction (now : Int) (st : OldMaidSessionRecord) :
    OldMaidSessionRecord × Nat :=
  let staleThreshold := if st.status = .waiting then WAITING_ROOM_PLAYER_SECONDS
                        else STALE_PLAYER_SECONDS
  let pr := pruneOldMaidPlayers st.players st.playerLastSeen now staleThreshold
  let filtered := pr.1
  let removed := pr.2.1
  let changed := pr.2.2
  if removed = [] ∧ changed = false then (st, 0)
  else
    let base := { st with
      players := filtered
      playerLastSeen := deleteSeen st.playerLastSeen removed
      updatedAt := now }
    let st' :=
      if st.status = .active then
        if filtered.length ≤ 1 then
          { base with
            status := .complete
            loser := (filtered.head?).map (·.name)
            turnIndex := 0 }
        else if st.turnIndex ≥ (filtered.length : Int) then
          { base with turnIndex := st.turnIndex.tmod (filtered.length : Int) }
        else base
      else if filtered.length = 0 ∧ st.turnIndex ≠ 0 then
        { base with turnIndex := 0 }
      else base
    (st', removed.length)

/-- `refreshOldMaidIfIdle` of `index.ts`: recycle the session to an empty
waiting room when `updatedAt` is missing/zero or beyond the staleness
threshold (5 minutes for a stalled active game, 1 hour otherwise). -/
def refreshOldMaidIfIdle (now : Int) (st : OldMaidSessionRecord) :
    OldMaidSessionRecord :=
  let staleThreshold := if st.status = .active then STALLED_ACTIVE_OLD_MAID_SECONDS
                        else STALE_GAME_SECONDS
  if st.updatedAt ≠ 0 ∧ now - st.updatedAt ≤ staleThreshold then st
  else
    { st with
      status := .waiting
      players := []
      turnIndex := 0
      updatedAt := now
      loser := none
      playerLastSeen := [] }

/-! ## Old Maid transactions -/

/-- The reseated player records built by `startOldMaidSession` from the
online roster. -/
def resetEligiblePlayer (p : OldMaidPlayer) : OldMaidPlayer :=
  { name := p.name, displayName := p.displayName, hand := [], discards := [],
    isOnline := true, isSafe := false, idleWarning := false }

/-- The round-robin deal of `startOldMaidSession`:
`deck.forEach((card, index) => players[index % n].hand.push(card))`. -/
def dealHands (n : Nat) (deck : List Card) : List (List Card) :=
  deck.enum.foldl
    (fun hands ic => hands.set (ic.1 % n) (hands.getD (ic.1 % n) [] ++ [ic.2]))
    (List.replicate n [])

/-- The `startOldMaidSession` transaction of `index.ts`; `shuffledDeck`
stands for `buildOldMaidDeck()`'s Fisher–Yates output (a permutation of
`oldMaidBaseDeck`). -/
def startOldMaidSession (now : Int) (shuffledDeck : List Card)
    (st : OldMaidSessionRecord) (playerName : String) :
    OldMaidSessionRecord × Except String Unit :=
  let st1 := refreshOldMaidIfIdle now st
  let st2 := (pruneOldMaidPlayersInTransaction now st1).1
  if st2.status = .active then (st2, .error "already_active")
  else
    let eligible := (st2.players.filter (fun p => p.isOnline)).map resetEligiblePlayer
    if !(eligible.any (fun p => p.name == playerName)) then
      (st2, .error "must_be_online")
    else if eligible.length < 2 then (st2, .error "need_two_players")
    else
      let hands := dealHands eligible.length shuffledDeck
      let dealt := eligible.enum.map fun ip =>
        let rp := resolveOldMaidPairs (hands.getD ip.1 [])
        { ip.2 with hand := rp.1, discards := rp.2, isSafe := rp.1.isEmpty }
      let startIndex := dealt.findIdx? (fun p => p.hand.length != 0)
      ({ status := .active
         players := dealt
         turnIndex := ((startIndex.getD 0 : Nat) : Int)
         createdAt := st2.createdAt
         updatedAt := now
         loser := none
         playerLastSeen := dealt.map (fun p => (p.name, now))
         shuffleLock := none }, .ok ())

/-- The raw `cardPosition` request field as JavaScript sees it: absent or
not a number, a non-finite number, or a finite (possibly negative or
fractional) number. -/
inductive CardPositionInput
  | missing
  | nonFinite
  | finite (q : ℚ)
deriving DecidableEq

/-- The normalization in `drawOldMaidCard`'s callable wrapper:
`Number.isFinite(p) ? Math.max(0, Math.floor(p)) : null`. -/
def normalizeCardPosition : CardPositionInput → Option Nat
  | .finite q => some (max 0 ⌊q⌋).toNat
  | _ => none

/-- The `drawOldMaidCard` transaction of `index.ts`.  `randPick` stands
for `Math.floor(Math.random() * target.hand.length)`, which is always in
range for a non-empty hand; theorems carry that bound as a hypothesis. -/
def drawOldMaidCard (now : Int) (st : OldMaidSessionRecord)
    (playerName : String) (cardPosition : CardPositionInput) (randPick : Nat) :
    OldMaidSessionRecord × Except String Unit :=
  let requestedPosition := normalizeCardPosition cardPosition
  if st.status ≠ .active then (st, .error "not_active")
  else
    let st2 := (pruneOldMaidPlayersInTransaction now st).1
    let players := st2.players
    match players.findIdx? (fun p => p.name == playerName) with
    | none => (st2, .error "not_in_game")
    | some currentIndex =>
      if (currentIndex : Int) ≠ st2.turnIndex then (st2, .error "not_your_turn")
      else
        match findNextPlayerWithCards players currentIndex with
        | none => (st2, .error "no_target")
        | some targetIndex =>
          let target := players.getD targetIndex defaultOldMaidPlayer
          let activeP := players.getD currentIndex defaultOldMaidPlayer
          if target.hand.length = 0 then (st2, .error "target_empty")
          else
            let drawIndex :=
              match requestedPosition with
              | some p => if p < target.hand.length then p else randPick
              | none => randPick
            let drawn? := target.hand[drawIndex]?
            let players1 :=
              if currentIndex = targetIndex then
                -- `target` and `active` alias the same object in the source
                let updatedHand := target.hand.eraseIdx drawIndex ++ drawn?.toList
                let rp := resolveOldMaidPairs updatedHand
                players.set currentIndex { activeP with
                  hand := rp.1
                  discards := activeP.discards ++ rp.2
                  isSafe := rp.1.isEmpty }
              else
                let target1 := { target with hand := target.hand.eraseIdx drawIndex }
                let rp := resolveOldMaidPairs (activeP.hand ++ drawn?.toList)
                let active1 := { activeP with
                  hand := rp.1
                  discards := activeP.discards ++ rp.2
                  isSafe := rp.1.isEmpty }
                (players.set targetIndex
                    { target1 with isSafe := target1.hand.isEmpty }).set
                  currentIndex active1
            let playersWithCards := players1.filter (fun p => p.hand.length != 0)
            let loser : Option String :=
              if playersWithCards.length = 1 then
                some ((playersWithCards.getD 0 defaultOldMaidPlayer).name)
              else none
            let nextTurn : Int :=
              match loser with
              | some l =>
                match players1.findIdx? (fun p => p.name == l) with
                | some k => (k : Nat)
                | none => -1
              | none =>
                match findNextPlayerWithCards players1 currentIndex with
                | some k => (k : Nat)
                | none => (currentIndex : Nat)
            ({ st2 with
               players := players1
               turnIndex := nextTurn
               updatedAt := now
               status := if loser.isSome then .complete else .active
               loser := loser
               playerLastSeen := setSeen st2.playerLastSeen playerName now },
             .ok ())

/-- The `shuffleOldMaidHand` transaction of `index.ts`.  `permutedHand`
stands for `shuffle([...hand])` (a permutation of the player's hand);
`nowSec`/`nowMs` are the seconds/milliseconds views of `Timestamp.now()`.
The post-commit effect write and advisory-lock clearing are
non-transactional and outside the model. -/
def shuffleOldMaidHand (nowSec nowMs : Int) (st : OldMaidSessionRecord)
    (playerName : String) (permutedHand : List Card) :
    OldMaidSessionRecord × Except String String :=
  if st.status ≠ .active then (st, .error "not_active")
  else
    let st2 := (pruneOldMaidPlayersInTransaction nowSec st).1
    let lockHeld :=
      match st2.shuffleLock with
      | some lk => decide (lk.2 > nowMs)
      | none => false
    if lockHeld then (st2, .error "shuffle_locked")
    else
      let players := st2.players
      match players.findIdx? (fun p => p.name == playerName) with
      | none => (st2, .error "not_in_game")
      | some index =>
        let pl := players.getD index defaultOldMaidPlayer
        if pl.hand.length < 2 then (st2, .error "not_enough_cards")
        else
          let players1 := players.set index { pl with hand := permutedHand }
          ({ st2 with
             players := players1
             updatedAt := nowSec
             playerLastSeen := setSeen st2.playerLastSeen playerName nowSec
             shuffleLock := some (playerName, nowMs + SHUFFLE_LOCK_TTL_MS) },
           .ok (match pl.displayName with
                | some d => if jsTrim d ≠ "" then jsTrim d else pl.name
                | none => pl.name))

/-- The `reportOldMaidPresence` transaction of `index.ts`: a heartbeat
with an unchanged flag commits nothing beyond the prune/idle-refresh; a
transition flips the flag, and an explicit transition to offline during an
*active* game marks the session complete with the reporting player as the
loser. -/
def reportOldMaidPresence (now : Int) (st : OldMaidSessionRecord)
    (playerName : String) (isOnline : Bool) : OldMaidSessionRecord :=
  let st1 := refreshOldMaidIfIdle now st
  let st2 := (pruneOldMaidPlayersInTransaction now st1).1
  let players := st2.players
  match players.findIdx? (fun p => p.name == playerName) with
  | none => st2
  | some index =>
    let pl := players.getD index defaultOldMaidPlayer
    if pl.isOnline = isOnline then st2
    else
      let pl1 := { pl with
        isOnline := isOnline
        idleWarning := if isOnline && pl.idleWarning then false else pl.idleWarning }
      let players1 := players.set index pl1
      let base := { st2 with
        players := players1
        updatedAt := now
        playerLastSeen := setSeen st2.playerLastSeen playerName now }
      if isOnline = false ∧ st2.status = .active then
        { base with status := .complete, loser := some playerName }
      else base

/-- `Σ|hand| + 2·Σ|discards|` over the roster: the number of cards in
circulation (spec §3, §8). -/
def playerCardCount (p : OldMaidPlayer) : Nat :=
  p.hand.length + 2 * p.discards.length

/-- Total cards in circulation in an Old Maid session. -/
def totalCirculation (st : OldMaidSessionRecord) : Nat :=
  (st.players.map playerCardCount).sum

/-! ## Helper lemmas -/

/-- The staleness test applied per player by `pruneStaleHighLowPlayers`:
last-seen entry missing, or more than `STALE_PLAYER_SECONDS` old. -/
def isStaleHighLow (lastSeen : LastSeenMap) (nowSeconds : Int) (p : Player) : Bool :=
  match resolveLastSeenSeconds lastSeen p.name with
  | none => true
  | some t => decide (nowSeconds - t > STALE_PLAYER_SECONDS)

theorem pruneStale_removed_eq (players : List Player) (lastSeen : LastSeenMap)
    (now : Int) :
    (pruneStaleHighLowPlayers players lastSeen now).2 =
      (players.filter (isStaleHighLow lastSeen now)).map (·.name) := by
  induction players with
  | nil => simp [pruneStaleHighLowPlayers]
  | cons p rest ih =>
    rcases hs : resolveLastSeenSeconds lastSeen p.name with _ | t
    · simp [pruneStaleHighLowPlayers, isStaleHighLow, List.filter_cons, hs, ih]
    · by_cases hlt : now - t > STALE_PLAYER_SECONDS
      · simp [pruneStaleHighLowPlayers, isStaleHighLow, List.filter_cons, hs, hlt, ih]
      · simp [pruneStaleHighLowPlayers, isStaleHighLow, List.filter_cons, hs, hlt, ih]

theorem pruneStale_kept_fresh (players : List Player) (lastSeen : LastSeenMap)
    (now : Int) :
    ∀ q ∈ (pruneStaleHighLowPlayers players lastSeen now).1,
      ∃ t, resolveLastSeenSeconds lastSeen q.name = some t ∧
        now - t ≤ STALE_PLAYER_SECONDS := by
  induction players with
  | nil => simp [pruneStaleHighLowPlayers]
  | cons p rest ih =>
    intro q hq
    simp only [pruneStaleHighLowPlayers] at hq
    rcases hs : resolveLastSeenSeconds lastSeen p.name with _ | t
    · simp only [hs] at hq
      exact ih q hq
    · simp only [hs] at hq
      by_cases hlt : now - t > STALE_PLAYER_SECONDS
      · simp only [if_pos hlt] at hq
        exact ih q hq
      · simp only [if_neg hlt] at hq
        rcases List.mem_cons.mp hq with hqe | hqr
        · subst hqe
          exact ⟨t, hs, le_of_not_lt hlt⟩
        · exact ih q hqr

/-- The freshness test: a last-seen entry exists and is at most
`STALE_PLAYER_SECONDS` old. -/
def isFreshHighLow (lastSeen : LastSeenMap) (nowSeconds : Int) (q : Player) : Bool :=
  match resolveLastSeenSeconds lastSeen q.name with
  | none => false
  | some t => decide (nowSeconds - t ≤ STALE_PLAYER_SECONDS)

/-- **C9.** High/Low staleness pruning removes a player exactly when their
`playerLastSeen` entry is missing or more than `STALE_PLAYER_SECONDS = 180`
seconds old (a player with no entry is removed immediately), and after a
pruning pass every remaining player's last-seen timestamp is within the
threshold. -/
theorem highLowPrune_staleness_spec (players : List Player)
    (lastSeen : LastSeenMap) (now : Int) :
    (pruneStaleHighLowPlayers players lastSeen now).2 =
      (players.filter (isStaleHighLow lastSeen now)).map (·.name) ∧
    (pruneStaleHighLowPlayers players lastSeen now).1.all
      (isFreshHighLow lastSeen now) = true ∧
    STALE_PLAYER_SECONDS = 180 := by
  refine ⟨pruneStale_removed_eq players lastSeen now, ?_, rfl⟩
  rw [List.all_eq_true]
  intro q hq
  obtain ⟨t, hl, hle⟩ := pruneStale_kept_fresh players lastSeen now q hq
  simp [isFreshHighLow, hl, hle]

/-- **C10.** `drawOldMaidCard` never indexes outside the target's hand:
a non-numeric/non-finite `cardPosition` is dropped, a finite one is
floored and clamped at 0 (so a negative request becomes 0), an
out-of-range request is replaced by the random in-range pick, the
computed draw index is always within the target's hand, and the draw
succeeds whenever the other preconditions hold. -/
theorem drawOldMaidCard_position_safe
    (now : Int) (st : OldMaidSessionRecord) (playerName : String)
    (pos : CardPositionInput) (randPick : Nat) (i j : Nat)
    (hact : st.status = .active)
    (hpr : pruneOldMaidPlayersInTransaction now st = (st, 0))
    (hidx : st.players.findIdx? (fun p => p.name == playerName) = some i)
    (hturn : (i : Int) = st.turnIndex)
    (htgt : findNextPlayerWithCards st.players i = some j)
    (hrand : randPick < (st.players.getD j defaultOldMaidPlayer).hand.length) :
    (drawOldMaidCard now st playerName pos randPick).2 = .ok () ∧
    (match normalizeCardPosition pos with
      | some p =>
        if p < (st.players.getD j defaultOldMaidPlayer).hand.length then p
        else randPick
      | none => randPick) <
      (st.players.getD j defaultOldMaidPlayer).hand.length ∧
    normalizeCardPosition .missing = none ∧
    normalizeCardPosition .nonFinite = none ∧
    (∀ q : ℚ, normalizeCardPosition (.finite q) = some (max 0 ⌊q⌋).toNat) ∧
    (∀ q : ℚ, q < 0 → normalizeCardPosition (.finite q) = some 0) := by
  have hlen : (st.players.getD j defaultOldMaidPlayer).hand.length ≠ 0 :=
    Nat.pos_iff_ne_zero.mp (lt_of_le_of_lt (Nat.zero_le _) hrand)
  have hne : (st.players.getD j defaultOldMaidPlayer).hand ≠ [] := by
    intro h
    exact hlen (by rw [h]; rfl)
  refine ⟨?_, ?_, rfl, rfl, fun q => rfl, ?_⟩
  · simp only [drawOldMaidCard, hact, hpr, hidx, htgt, ← hturn]
    rw [if_neg hlen]
    simp
  · cases hp : normalizeCardPosition pos with
    | none => simpa [hp] using hrand
    | some p =>
      simp only [hp]
      by_cases hplt : p < (st.players.getD j defaultOldMaidPlayer).hand.length
      · rw [if_pos hplt]; exact hplt
      · rw [if_neg hplt]; exact hrand
  · intro q hq
    have hfl : ⌊q⌋ ≤ 0 := Int.floor_nonpos hq.le
    simp [normalizeCardPosition, max_eq_left hfl]

/-- A concrete two-player active Old Maid state (fresh presence, player
"a" on turn holding the Joker, player "b" holding two cards). -/
def omTwoPlayerState : OldMaidSessionRecord :=
  { status := .active
    players :=
      [ { name := "a", displayName := some "A", hand := [jokerCard],
          discards := [], isOnline := true, isSafe := false, idleWarning := false },
        { name := "b", displayName := some "B",
          hand := [⟨5, .diamonds, "5♦"⟩, ⟨9, .hearts, "9♥"⟩],
          discards := [], isOnline := true, isSafe := false, idleWarning := false } ]
    turnIndex := 0
    createdAt := 0
    updatedAt := 990
    loser := none
    playerLastSeen := [("a", 990), ("b", 990)]
    shuffleLock := none }

/-- Witness for C10: a negative fractional `cardPosition` is normalized to
0 and the draw succeeds on `omTwoPlayerState`. -/
theorem drawOldMaidCard_position_safe_witness :
    (drawOldMaidCard 1000 omTwoPlayerState "a" (.finite (-(7 : ℚ)/2)) 0).2 = .ok () ∧
    normalizeCardPosition (.finite (-(7 : ℚ)/2)) = some 0 := by
  have h := drawOldMaidCard_position_safe 1000 omTwoPlayerState "a"
    (.finite (-(7 : ℚ)/2)) 0 0 1 rfl (by decide) (by decide) (by decide)
    (by decide) (by decide)
  exact ⟨h.1, h.2.2.2.2.2 (-(7 : ℚ)/2) (by norm_num)⟩

theorem compareCards_eq_zero_iff (a b : Card) :
    compareCards a b = 0 ↔ b.rank = a.rank := by
  unfold compareCards
  split_ifs with h1 h2
  · constructor <;> intro hh <;> omega
  · constructor
    · intro hh
      exact absurd hh (by decide)
    · intro hh
      omega
  · constructor <;> intro hh <;> omega

theorem evaluateGuess_of_ne (guess : GuessChoice) (prev next : Card)
    (h : next.rank ≠ prev.rank) :
    evaluateGuess guess prev next =
      (match guess with
        | .higher => decide (prev.rank < next.rank)
        | .lower => decide (next.rank < prev.rank)) := by
  rcases Nat.lt_trichotomy prev.rank next.rank with hlt | heq | hgt
  · have h1 : next.rank > prev.rank := hlt
    simp only [evaluateGuess, compareCards, if_pos h1]
    cases guess <;> simp <;> omega
  · exact absurd heq.symm h
  · simp only [evaluateGuess, compareCards, if_neg (by omega : ¬next.rank > prev.rank),
      if_pos hgt]
    cases guess <;> simp <;> omega

theorem drawLoop_deck_split (guess : GuessChoice) (ref : Card)
    (deck : List Card) :
    (drawLoop guess ref deck).drawn ++ (drawLoop guess ref deck).deckAfter
      = deck := by
  induction deck generalizing ref with
  | nil => rfl
  | cons c rest ih =>
    simp only [drawLoop]
    by_cases h : compareCards ref c = 0
    · simp only [if_pos h, List.cons_append]
      rw [ih c]
    · simp [if_neg h]

theorem drawLoop_unresolved_correct (guess : GuessChoice) (ref : Card)
    (deck : List Card)
    (h : (drawLoop guess ref deck).resolved = false) :
    (drawLoop guess ref deck).correct = true := by
  induction deck generalizing ref with
  | nil => rfl
  | cons c rest ih =>
    simp only [drawLoop] at h ⊢
    by_cases hc : compareCards ref c = 0
    · simp only [if_pos hc] at h ⊢
      exact ih c h
    · simp only [if_neg hc] at h
      simp at h

theorem drawLoop_tie_run (guess : GuessChoice) (top : Card) (ties : List Card)
    (c : Card) (rest : List Card)
    (hties : ∀ t ∈ ties, t.rank = top.rank) (hdiff : c.rank ≠ top.rank) :
    drawLoop guess top (ties ++ c :: rest) =
      { drawn := ties ++ [c], deckAfter := rest, resolved := true,
        correct := evaluateGuess guess ((top :: ties).getLastD defaultCard) c } := by
  induction ties generalizing top with
  | nil =>
    have hcc : compareCards top c ≠ 0 := by
      rw [Ne, compareCards_eq_zero_iff]
      exact hdiff
    simp [drawLoop, if_neg hcc]
  | cons t ts ih =>
    have hrank : t.rank = top.rank := hties t (by simp)
    have hcc : compareCards top t = 0 := by
      rw [compareCards_eq_zero_iff]
      exact hrank
    have hties' : ∀ u ∈ ts, u.rank = t.rank := by
      intro u hu
      rw [hrank]
      exact hties u (by simp [hu])
    have hdiff' : c.rank ≠ t.rank := by
      rw [hrank]
      exact hdiff
    simp only [List.cons_append, drawLoop, if_pos hcc, List.append_eq]
    rw [ih t hties' hdiff']
    simp [List.getLastD_cons]

theorem drawLoop_tie_run_last_rank (top : Card) (ties : List Card)
    (hties : ∀ t ∈ ties, t.rank = top.rank) :
    ((top :: ties).getLastD defaultCard).rank = top.rank := by
  induction ties generalizing top with
  | nil => rfl
  | cons t ts ih =>
    rw [List.getLastD_cons, List.getLastD_cons]
    have : ∀ u ∈ ts, u.rank = t.rank := by
      intro u hu
      rw [hties t (by simp)]
      exact hties u (by simp [hu])
    rw [show ts.getLastD t = ((t :: ts).getLastD defaultCard) from
      (List.getLastD_cons _ _ _).symm, ih t this]
    exact hties t (by simp)

theorem playerChanged_eq_false (p : Player) (h : normalizePlayer p = p) :
    playerChanged p = false := by
  have hn : normalizedName p = p.name := congrArg Player.name h
  have hd : some (normalizedDisplayName p) = p.displayName :=
    congrArg Player.displayName h
  simp [playerChanged, hn, ← hd]

theorem playersChanged_eq_false (ps : List Player)
    (h : normalizePlayers ps = ps) : playersChanged ps = false := by
  induction ps with
  | nil => rfl
  | cons p rest ih =>
    simp only [normalizePlayers, List.map_cons, List.cons.injEq] at h
    simp [playersChanged, playerChanged_eq_false p h.1]
    have := ih h.2
    simpa [playersChanged] using this

/-- Success-path characterization of `makeGuess`: when the session is
fresh and normalized, nobody is stale, the caller holds the turn and is
active and online, and the target pile is open, non-empty and the deck
non-empty, the transaction runs the draw loop and commits its result. -/
theorem makeGuess_success_eq (now : Int) (shuffled : List Card)
    (st : GameSessionRecord) (playerName : String) (guess : GuessChoice)
    (pileId : String) (currentIndex pileIndex : Nat)
    (hrefresh : refreshHighLowIfIdle now shuffled st = st)
    (hstatus : ¬st.status = .complete)
    (hnorm : normalizePlayers st.players = st.players)
    (hprune : pruneStaleHighLowPlayers st.players st.playerLastSeen now
      = (st.players, []))
    (hcur : ensureTurnIndex st.players st.turnIndex true = some currentIndex)
    (hname : jsToLower (st.players.getD currentIndex defaultPlayer).name
      = jsToLower playerName)
    (hactive : (st.players.getD currentIndex defaultPlayer).isActive = true)
    (honline : (st.players.getD currentIndex defaultPlayer).isOnline = true)
    (hpile : st.piles.findIdx? (fun pile => pile.id == pileId) = some pileIndex)
    (hup : (st.piles.getD pileIndex defaultPile).isFaceUp = true)
    (hcards : ¬(st.piles.getD pileIndex defaultPile).cards.length = 0)
    (hdeckne : ¬st.deck.length = 0) :
    makeGuess now shuffled st playerName guess pileId =
      makeGuessDraw now st st.players guess currentIndex pileIndex := by
  have hch : playersChanged st.players = false := playersChanged_eq_false _ hnorm
  have hlen : ¬st.players.length = 0 := by
    intro h0
    rw [ensureTurnIndex, if_pos h0] at hcur
    cases hcur
  have hpl : ¬st.piles.length = 0 := by
    intro h0
    rw [List.length_eq_zero] at h0
    rw [h0] at hpile
    simp [List.findIdx?_nil] at hpile
  simp only [makeGuess, hrefresh, if_neg hstatus, hnorm, hch, Bool.false_eq_true,
    if_false, prunePlayersInTransaction, hprune, eq_self_iff_true, if_true,
    if_neg hlen, hcur, hname, ne_eq, not_true_eq_false, hactive, honline,
    Bool.not_true, if_neg hpl, hpile, hup, if_neg hcards, if_neg hdeckne]

/-- **C3.** For a `makeGuess` call on a face-up, non-empty pile whose deck
begins with `k = |ties|` cards tying the pile's top card followed by one
card `c` of differing rank: exactly `k+1` cards leave the front of the
deck, all are appended in order to the target pile, and correctness is
decided solely by comparing `c` with the preceding top card — `higher`
means strictly greater rank, `lower` strictly smaller. -/
theorem makeGuess_tie_loop_spec (now : Int) (shuffled : List Card)
    (st : GameSessionRecord) (playerName : String) (guess : GuessChoice)
    (pileId : String) (currentIndex pileIndex : Nat)
    (ties rest : List Card) (c topCard : Card)
    (hrefresh : refreshHighLowIfIdle now shuffled st = st)
    (hstatus : ¬st.status = .complete)
    (hnorm : normalizePlayers st.players = st.players)
    (hprune : pruneStaleHighLowPlayers st.players st.playerLastSeen now
      = (st.players, []))
    (hcur : ensureTurnIndex st.players st.turnIndex true = some currentIndex)
    (hname : jsToLower (st.players.getD currentIndex defaultPlayer).name
      = jsToLower playerName)
    (hactive : (st.players.getD currentIndex defaultPlayer).isActive = true)
    (honline : (st.players.getD currentIndex defaultPlayer).isOnline = true)
    (hpile : st.piles.findIdx? (fun pile => pile.id == pileId) = some pileIndex)
    (hup : (st.piles.getD pileIndex defaultPile).isFaceUp = true)
    (hcards : ¬(st.piles.getD pileIndex defaultPile).cards.length = 0)
    (htop : (st.piles.getD pileIndex defaultPile).cards.getLastD defaultCard
      = topCard)
    (hdeck : st.deck = ties ++ c :: rest)
    (hties : ∀ t ∈ ties, t.rank = topCard.rank)
    (hdiff : c.rank ≠ topCard.rank) :
    (makeGuess now shuffled st playerName guess pileId).1.deck = rest ∧
    ((makeGuess now shuffled st playerName guess pileId).1.piles.getD pileIndex
        defaultPile).cards
      = (st.piles.getD pileIndex defaultPile).cards ++ (ties ++ [c]) ∧
    ∃ r, (makeGuess now shuffled st playerName guess pileId).2 = .ok r ∧
      r.drawnCards = ties ++ [c] ∧
      r.correct = evaluateGuess guess ((topCard :: ties).getLastD defaultCard) c ∧
      (guess = .higher → r.correct = decide (topCard.rank < c.rank)) ∧
      (guess = .lower → r.correct = decide (c.rank < topCard.rank)) := by
  have hdeckne : ¬st.deck.length = 0 := by simp [hdeck]
  have heq := makeGuess_success_eq now shuffled st playerName guess pileId
    currentIndex pileIndex hrefresh hstatus hnorm hprune hcur hname hactive
    honline hpile hup hcards hdeckne
  have hploop : drawLoop guess
      ((st.piles.getD pileIndex defaultPile).cards.getLastD defaultCard) st.deck
      = { drawn := ties ++ [c], deckAfter := rest, resolved := true,
          correct := evaluateGuess guess ((topCard :: ties).getLastD defaultCard) c } := by
    rw [htop, hdeck]
    exact drawLoop_tie_run guess topCard ties c rest hties hdiff
  have hplt : pileIndex < st.piles.length := by
    obtain ⟨h, -, -⟩ := List.findIdx?_eq_some_iff_getElem.mp hpile
    exact h
  have hrank := drawLoop_tie_run_last_rank topCard ties hties
  have hdiffLast : c.rank ≠ ((topCard :: ties).getLastD defaultCard).rank := by
    rw [hrank]
    exact hdiff
  have hploopB : drawLoop guess
      ((st.piles[pileIndex]?.getD defaultPile).cards.getLastD defaultCard) st.deck
      = { drawn := ties ++ [c], deckAfter := rest, resolved := true,
          correct := evaluateGuess guess ((topCard :: ties).getLastD defaultCard) c } := by
    rw [← List.getD_eq_getElem?_getD]
    exact hploop
  have hrankB : ((topCard :: ties).getLast?.getD defaultCard).rank = topCard.rank := by
    rw [← List.getLastD_eq_getLast?]
    exact hrank
  rw [heq]
  refine ⟨?_, ?_, ⟨_, rfl, ?_, ?_, ?_, ?_⟩⟩
  · simp only [makeGuessDraw, hploop]
  · simp only [makeGuessDraw, hploop, hploopB, List.getD_eq_getElem?_getD,
      List.getElem?_set_self hplt, Option.getD_some]
  · simp only [makeGuessDraw, hploop]
  · simp only [makeGuessDraw, hploop]
  · intro hg
    subst hg
    simp only [makeGuessDraw, hploop]
    rw [evaluateGuess_of_ne _ _ _ hdiffLast]
    simp [hrank, hrankB]
  · intro hg
    subst hg
    simp only [makeGuessDraw, hploop]
    rw [evaluateGuess_of_ne _ _ _ hdiffLast]
    simp [hrank, hrankB]

/-- A concrete fresh High/Low state: one active online player "ray" on
turn, pile `pile-0` showing `5♦`, deck `5♥, 5♠, 9♦, 2♣`. -/
def hlGuessState : GameSessionRecord :=
  { players := [{ name := "ray", displayName := some "ray",
                  isActive := true, isOnline := true }]
    deck := [⟨5, .hearts, "5♥"⟩, ⟨5, .spades, "5♠"⟩, ⟨9, .diamonds, "9♦"⟩,
             ⟨2, .clubs, "2♣"⟩]
    piles := [{ id := "pile-0", row := 0, column := 0,
                cards := [⟨5, .diamonds, "5♦"⟩], isFaceUp := true }]
    turnIndex := 0
    turnStartedAt := 990
    status := .active
    acesHigh := false
    createdAt := 900
    updatedAt := 990
    playerLastSeen := [("ray", 990)]
    outcome := none }

/-- Witness for C3: on `hlGuessState`, guessing higher draws the two tied
fives and the resolving `9♦`, leaves `2♣` in the deck, and is correct. -/
theorem makeGuess_tie_loop_spec_witness :
    (makeGuess 1000 [] hlGuessState "ray" .higher "pile-0").1.deck
      = [⟨2, .clubs, "2♣"⟩] ∧
    ∃ r, (makeGuess 1000 [] hlGuessState "ray" .higher "pile-0").2 = .ok r ∧
      r.drawnCards = [⟨5, .hearts, "5♥"⟩, ⟨5, .spades, "5♠"⟩, ⟨9, .diamonds, "9♦"⟩] ∧
      r.correct = true := by
  have h := makeGuess_tie_loop_spec 1000 [] hlGuessState "ray" .higher "pile-0"
    0 0 [⟨5, .hearts, "5♥"⟩, ⟨5, .spades, "5♠"⟩] [⟨2, .clubs, "2♣"⟩]
    ⟨9, .diamonds, "9♦"⟩ ⟨5, .diamonds, "5♦"⟩
    (by decide) (by decide) (by decide) (by decide) (by decide) (by decide)
    (by decide) (by decide) (by decide) (by decide) (by decide) (by decide)
    (by decide) (by decide) (by decide)
  obtain ⟨hdeck', -, r, hok, hdrawn, -, hhi, -⟩ := h
  exact ⟨hdeck', r, hok, hdrawn, (hhi rfl).trans (by decide)⟩

theorem prunePlayersInTransaction_state (now : Int) (st : GameSessionRecord)
    (ps : List Player) :
    (prunePlayersInTransaction now st ps).1.piles = st.piles ∧
    (prunePlayersInTransaction now st ps).1.deck = st.deck ∧
    (prunePlayersInTransaction now st ps).1.status = st.status ∧
    (prunePlayersInTransaction now st ps).1.outcome = st.outcome ∧
    (prunePlayersInTransaction now st ps).1.turnIndex = st.turnIndex ∧
    (prunePlayersInTransaction now st ps).1.turnStartedAt = st.turnStartedAt := by
  unfold prunePlayersInTransaction
  by_cases h : (pruneStaleHighLowPlayers ps st.playerLastSeen now).2 = [] <;>
    simp [h]

/-- Any `makeGuess` call on a fresh session either leaves the card
material (piles and deck) untouched — every rejection path — or commits
exactly the draw-loop transfer from the front of the deck onto the found
face-up target pile. -/
theorem makeGuess_state_cases (now : Int) (shuffled : List Card)
    (st : GameSessionRecord) (playerName : String) (guess : GuessChoice)
    (pileId : String)
    (hrefresh : refreshHighLowIfIdle now shuffled st = st) :
    ((makeGuess now shuffled st playerName guess pileId).1.piles = st.piles ∧
     (makeGuess now shuffled st playerName guess pileId).1.deck = st.deck) ∨
    (∃ pileIndex,
      st.piles.findIdx? (fun pile => pile.id == pileId) = some pileIndex ∧
      (st.piles.getD pileIndex defaultPile).isFaceUp = true ∧
      (st.piles.getD pileIndex defaultPile).cards.length ≠ 0 ∧
      (makeGuess now shuffled st playerName guess pileId).1.piles
        = st.piles.set pileIndex
          { st.piles.getD pileIndex defaultPile with
            cards := (st.piles.getD pileIndex defaultPile).cards ++
              (drawLoop guess
                ((st.piles.getD pileIndex defaultPile).cards.getLastD defaultCard)
                st.deck).drawn
            isFaceUp := if (drawLoop guess
                ((st.piles.getD pileIndex defaultPile).cards.getLastD defaultCard)
                st.deck).resolved && !(drawLoop guess
                ((st.piles.getD pileIndex defaultPile).cards.getLastD defaultCard)
                st.deck).correct then false
              else (st.piles.getD pileIndex defaultPile).isFaceUp } ∧
      (makeGuess now shuffled st playerName guess pileId).1.deck
        = (drawLoop guess
            ((st.piles.getD pileIndex defaultPile).cards.getLastD defaultCard)
            st.deck).deckAfter) := by
  have hPT := prunePlayersInTransaction_state now
    (if playersChanged st.players then
      { st with players := normalizePlayers st.players, updatedAt := now }
     else st) (normalizePlayers st.players)
  have hmidp : (if playersChanged st.players then
      { st with players := normalizePlayers st.players, updatedAt := now }
     else st).piles = st.piles := by split <;> rfl
  have hmidd : (if playersChanged st.players then
      { st with players := normalizePlayers st.players, updatedAt := now }
     else st).deck = st.deck := by split <;> rfl
  obtain ⟨hp3, hd3, -, -, -, -⟩ := hPT
  rw [hmidp] at hp3
  rw [hmidd] at hd3
  rcases hmk : makeGuess now shuffled st playerName guess pileId with ⟨stout, res⟩
  unfold makeGuess at hmk
  rw [hrefresh] at hmk
  simp only [] at hmk
  set PT := prunePlayersInTransaction now
    (if playersChanged st.players then
      { st with players := normalizePlayers st.players, updatedAt := now }
     else st) (normalizePlayers st.players) with hPTdef
  have hleft : ∀ e : Except String GuessResultRec,
      (PT.1, e) = (stout, res) →
      (stout.piles = st.piles ∧ stout.deck = st.deck) := by
    intro e he
    obtain ⟨h1, -⟩ := Prod.mk.injEq .. ▸ he
    rw [← h1]
    exact ⟨hp3, hd3⟩
  split at hmk
  · obtain ⟨h1, -⟩ := Prod.mk.injEq .. ▸ hmk
    rw [← h1]
    exact Or.inl ⟨rfl, rfl⟩
  · split at hmk
    · exact Or.inl (hleft _ hmk)
    · split at hmk
      · exact Or.inl (hleft _ hmk)
      · split at hmk
        · exact Or.inl (hleft _ hmk)
        · split at hmk
          · exact Or.inl (hleft _ hmk)
          · split at hmk
            · exact Or.inl (hleft _ hmk)
            · split at hmk
              · exact Or.inl (hleft _ hmk)
              · split at hmk
                · exact Or.inl (hleft _ hmk)
                · rename_i pileIndex hfound
                  rw [hp3] at hfound
                  split at hmk
                  · exact Or.inl (hleft _ hmk)
                  · split at hmk
                    · exact Or.inl (hleft _ hmk)
                    · split at hmk
                      · exact Or.inl (hleft _ hmk)
                      · rename_i hopen hlen hdeck
                        obtain ⟨h1, -⟩ := Prod.mk.injEq .. ▸ hmk
                        rw [← h1]
                        refine Or.inr ⟨pileIndex, hfound, ?_, ?_, ?_, ?_⟩
                        · revert hopen
                          rw [hp3]
                          cases (st.piles.getD pileIndex defaultPile).isFaceUp <;>
                            simp
                        · revert hlen
                          rw [hp3]
                          simp
                        · simp [makeGuessDraw, hp3, hd3]
                        · simp [makeGuessDraw, hp3, hd3]

/-- **C5.** Once a pile's `isFaceUp` is false it never turns true again
within an ongoing session: every `makeGuess` call (the only operation that
rewrites piles short of a session reset) preserves `isFaceUp = false`
positionally, and a guess against a locked pile is rejected with
`pile_locked` leaving the session state untouched. -/
theorem pileLock_monotonic (now : Int) (shuffled : List Card)
    (st : GameSessionRecord) (playerName : String) (guess : GuessChoice)
    (pileId : String) (currentIndex pileIndex : Nat)
    (hrefresh : refreshHighLowIfIdle now shuffled st = st) :
    (∀ i, i < st.piles.length →
      (st.piles.getD i defaultPile).isFaceUp = false →
      ((makeGuess now shuffled st playerName guess pileId).1.piles.getD i
        defaultPile).isFaceUp = false) ∧
    (¬st.status = .complete →
     normalizePlayers st.players = st.players →
     pruneStaleHighLowPlayers st.players st.playerLastSeen now
       = (st.players, []) →
     ensureTurnIndex st.players st.turnIndex true = some currentIndex →
     jsToLower (st.players.getD currentIndex defaultPlayer).name
       = jsToLower playerName →
     (st.players.getD currentIndex defaultPlayer).isActive = true →
     (st.players.getD currentIndex defaultPlayer).isOnline = true →
     st.piles.findIdx? (fun pile => pile.id == pileId) = some pileIndex →
     (st.piles.getD pileIndex defaultPile).isFaceUp = false →
     makeGuess now shuffled st playerName guess pileId
       = (st, .error "pile_locked")) := by
  constructor
  · intro i hi hfalse
    rcases makeGuess_state_cases now shuffled st playerName guess pileId
        hrefresh with ⟨hpiles, -⟩ | ⟨pj, hfound, hupj, -, hpiles, -⟩
    · rw [hpiles]
      exact hfalse
    · rw [hpiles]
      by_cases hij : i = pj
      · subst hij
        rw [hfalse] at hupj
        cases hupj
      · rw [List.getD_eq_getElem?_getD, List.getElem?_set_ne (Ne.symm hij),
          ← List.getD_eq_getElem?_getD]
        exact hfalse
  · intro hstatus hnorm hprune hcur hname hactive honline hpile hlow
    have hch : playersChanged st.players = false := playersChanged_eq_false _ hnorm
    have hlen : ¬st.players.length = 0 := by
      intro h0
      rw [ensureTurnIndex, if_pos h0] at hcur
      cases hcur
    have hpl : ¬st.piles.length = 0 := by
      intro h0
      rw [List.length_eq_zero] at h0
      rw [h0] at hpile
      simp [List.findIdx?_nil] at hpile
    simp only [makeGuess, hrefresh, if_neg hstatus, hnorm, hch,
      Bool.false_eq_true, if_false, prunePlayersInTransaction, hprune,
      eq_self_iff_true, if_true, if_neg hlen, hcur, hname, ne_eq,
      not_true_eq_false, hactive, honline, Bool.not_true, if_neg hpl, hpile,
      hlow, Bool.not_false]

/-- `hlGuessState` with its only pile locked. -/
def hlLockedState : GameSessionRecord :=
  { hlGuessState with
    piles := [{ id := "pile-0", row := 0, column := 0,
                cards := [⟨5, .diamonds, "5♦"⟩], isFaceUp := false }] }

/-- Witness for C5: a guess against the locked pile of `hlLockedState` is
rejected unchanged, and the lock persists across the call. -/
theorem pileLock_monotonic_witness :
    makeGuess 1000 [] hlLockedState "ray" .higher "pile-0"
      = (hlLockedState, .error "pile_locked") ∧
    ((makeGuess 1000 [] hlLockedState "ray" .higher "pile-0").1.piles.getD 0
      defaultPile).isFaceUp = false := by
  have h := pileLock_monotonic 1000 [] hlLockedState "ray" .higher "pile-0" 0 0
    (by decide)
  exact ⟨h.2 (by decide) (by decide) (by decide) (by decide) (by decide)
      (by decide) (by decide) (by decide) (by decide),
    h.1 0 (by decide) (by decide)⟩

/-- The cards on the table: concatenation of all piles' cards. -/
def pilesCards (piles : List TablePile) : List Card :=
  piles.flatMap (·.cards)

theorem perm_append_rotate (a e r : List Card) :
    ((a ++ e) ++ r).Perm ((a ++ r) ++ e) := by
  rw [List.append_assoc, List.append_assoc]
  exact List.Perm.append_left a List.perm_append_comm

theorem pilesCards_set_perm (piles : List TablePile) (i : Nat) (p : TablePile)
    (extra : List Card) (h : i < piles.length)
    (hc : p.cards = (piles.getD i defaultPile).cards ++ extra) :
    (pilesCards (piles.set i p)).Perm (pilesCards piles ++ extra) := by
  induction piles generalizing i with
  | nil => cases h
  | cons q rest ih =>
    cases i with
    | zero =>
      simp only [List.getD_cons_zero] at hc
      simp only [List.set_cons_zero, pilesCards, List.flatMap_cons, hc]
      exact perm_append_rotate q.cards extra (rest.flatMap (·.cards))
    | succ n =>
      have hn : n < rest.length := Nat.lt_of_succ_lt_succ h
      have hc' : p.cards = (rest.getD n defaultPile).cards ++ extra := by
        simpa [List.getD_cons_succ] using hc
      simp only [List.set_cons_succ, pilesCards, List.flatMap_cons]
      rw [List.append_assoc]
      exact List.Perm.append_left q.cards (ih n hn hc')

theorem pilesCards_initial_eq (l : List (Nat × Card)) :
    pilesCards (l.map (fun ic =>
      { id := "pile-" ++ toString ic.1, row := ic.1 / GRID_COLUMNS,
        column := ic.1 % GRID_COLUMNS, cards := [ic.2],
        isFaceUp := true : TablePile })) = l.map Prod.snd := by
  induction l with
  | nil => rfl
  | cons x xs ih =>
    simp only [List.map_cons, pilesCards, List.flatMap_cons] at ih ⊢
    simp [ih]

/-- **C6.** High/Low conservation: the deal splits a full 52-card
permutation into 9 single-card piles and a 43-card deck whose union is the
whole deck, and every `makeGuess` call preserves the multiset union of
deck and piles — moving, when it moves anything, only a front segment of
the deck onto the single target pile — so the union stays a permutation
of `generateDeck` for the session's lifetime between resets. -/
theorem highLowConservation (now : Int) (shuffled dealDeck : List Card)
    (st : GameSessionRecord) (playerName : String) (guess : GuessChoice)
    (pileId : String) :
    (dealDeck.Perm generateDeck →
      (createInitialPilesState dealDeck).2.length = TOTAL_PILES ∧
      (∀ pile ∈ (createInitialPilesState dealDeck).2, pile.cards.length = 1) ∧
      (createInitialPilesState dealDeck).1.length = 43 ∧
      ((createInitialPilesState dealDeck).1 ++
        pilesCards (createInitialPilesState dealDeck).2).Perm generateDeck) ∧
    (refreshHighLowIfIdle now shuffled st = st →
      ((makeGuess now shuffled st playerName guess pileId).1.deck ++
        pilesCards (makeGuess now shuffled st playerName guess pileId).1.piles).Perm
        (st.deck ++ pilesCards st.piles) ∧
      ((st.deck ++ pilesCards st.piles).Perm generateDeck →
        ((makeGuess now shuffled st playerName guess pileId).1.deck ++
          pilesCards (makeGuess now shuffled st playerName guess pileId).1.piles).Perm
          generateDeck) ∧
      (((makeGuess now shuffled st playerName guess pileId).1.deck = st.deck ∧
        pilesCards (makeGuess now shuffled st playerName guess pileId).1.piles
          = pilesCards st.piles) ∨
       ∃ pileIndex n,
        (makeGuess now shuffled st playerName guess pileId).1.deck
          = st.deck.drop n ∧
        ((makeGuess now shuffled st playerName guess pileId).1.piles.getD
            pileIndex defaultPile).cards
          = (st.piles.getD pileIndex defaultPile).cards ++ st.deck.take n)) := by
  constructor
  · intro hshuf
    have hlen : dealDeck.length = 52 := by
      rw [hshuf.length_eq]
      rfl
    have hpc : pilesCards (createInitialPilesState dealDeck).2
        = dealDeck.take TOTAL_PILES := by
      show pilesCards ((dealDeck.take TOTAL_PILES).enum.map _)
        = dealDeck.take TOTAL_PILES
      rw [pilesCards_initial_eq, List.enum_map_snd]
    refine ⟨?_, ?_, ?_, ?_⟩
    · show ((dealDeck.take TOTAL_PILES).enum.map _).length = TOTAL_PILES
      simp [hlen, TOTAL_PILES]
    · intro pile hmem
      show pile.cards.length = 1
      obtain ⟨ic, -, hic⟩ := List.mem_map.mp hmem
      rw [← hic]
      rfl
    · show (dealDeck.drop TOTAL_PILES).length = 43
      simp [hlen, TOTAL_PILES]
    · rw [hpc]
      show ((dealDeck.drop TOTAL_PILES) ++ dealDeck.take TOTAL_PILES).Perm
        generateDeck
      exact (List.perm_append_comm.trans
        (by rw [List.take_append_drop])).trans hshuf
  · intro hrefresh
    have hcases := makeGuess_state_cases now shuffled st playerName guess pileId
      hrefresh
    have hstep : ((makeGuess now shuffled st playerName guess pileId).1.deck ++
        pilesCards (makeGuess now shuffled st playerName guess pileId).1.piles).Perm
        (st.deck ++ pilesCards st.piles) := by
      rcases hcases with ⟨hpiles, hdeck⟩ | ⟨pj, hfound, -, -, hpiles, hdeck⟩
      · rw [hpiles, hdeck]
      · rw [hpiles, hdeck]
        have hj : pj < st.piles.length := by
          obtain ⟨h, -, -⟩ := List.findIdx?_eq_some_iff_getElem.mp hfound
          exact h
        have hsplit := drawLoop_deck_split guess
          ((st.piles.getD pj defaultPile).cards.getLastD defaultCard) st.deck
        have hperm := pilesCards_set_perm st.piles pj
          { st.piles.getD pj defaultPile with
            cards := (st.piles.getD pj defaultPile).cards ++
              (drawLoop guess
                ((st.piles.getD pj defaultPile).cards.getLastD defaultCard)
                st.deck).drawn
            isFaceUp := if (drawLoop guess
                ((st.piles.getD pj defaultPile).cards.getLastD defaultCard)
                st.deck).resolved && !(drawLoop guess
                ((st.piles.getD pj defaultPile).cards.getLastD defaultCard)
                st.deck).correct then false
              else (st.piles.getD pj defaultPile).isFaceUp }
          (drawLoop guess
            ((st.piles.getD pj defaultPile).cards.getLastD defaultCard)
            st.deck).drawn hj rfl
        refine (List.Perm.append_left _ hperm).trans ?_
        rw [← List.append_assoc]
        refine (perm_append_rotate _ _ _).trans ?_
        refine List.Perm.append_right _ ?_
        exact List.perm_append_comm.trans (by rw [hsplit])
    refine ⟨hstep, fun hinv => hstep.trans hinv, ?_⟩
    rcases hcases with ⟨hpiles, hdeck⟩ | ⟨pj, hfound, -, -, hpiles, hdeck⟩
    · exact Or.inl ⟨hdeck, by rw [hpiles]⟩
    · have hj : pj < st.piles.length := by
        obtain ⟨h, -, -⟩ := List.findIdx?_eq_some_iff_getElem.mp hfound
        exact h
      set L := drawLoop guess
        ((st.piles.getD pj defaultPile).cards.getLastD defaultCard) st.deck
        with hL
      have hsplit : L.drawn ++ L.deckAfter = st.deck := by
        rw [hL]
        exact drawLoop_deck_split guess
          ((st.piles.getD pj defaultPile).cards.getLastD defaultCard) st.deck
      refine Or.inr ⟨pj, L.drawn.length, ?_, ?_⟩
      · rw [hdeck, ← hsplit, List.drop_left]
      · rw [hpiles, List.getD_eq_getElem?_getD, List.getElem?_set_self hj,
          Option.getD_some, ← hsplit, List.take_left]

/-- Witness for C6: dealing from the canonical 52-card deck yields 9 piles,
and a concrete guess on `hlGuessState` preserves the deck/pile multiset. -/
theorem highLowConservation_witness :
    (createInitialPilesState generateDeck).2.length = TOTAL_PILES ∧
    ((makeGuess 1000 [] hlGuessState "ray" .higher "pile-0").1.deck ++
      pilesCards
        (makeGuess 1000 [] hlGuessState "ray" .higher "pile-0").1.piles).Perm
      (hlGuessState.deck ++ pilesCards hlGuessState.piles) :=
  ⟨((highLowConservation 1000 [] generateDeck hlGuessState "ray" .higher
        "pile-0").1 (List.Perm.refl generateDeck)).1,
   ((highLowConservation 1000 [] generateDeck hlGuessState "ray" .higher
        "pile-0").2 (by decide)).1⟩

/-! ## C4: endgame decision of `makeGuess` -/

/-- The draw loop run by `makeGuessDraw` against the target pile. -/
def mgLoop (st3 : GameSessionRecord) (guess : GuessChoice) (pileIndex : Nat) :
    DrawLoopResult :=
  drawLoop guess ((st3.piles.getD pileIndex defaultPile).cards.getLastD
    defaultCard) st3.deck

/-- The updated target pile committed by `makeGuessDraw`. -/
def mgNewPile (st3 : GameSessionRecord) (guess : GuessChoice)
    (pileIndex : Nat) : TablePile :=
  { st3.piles.getD pileIndex defaultPile with
    cards := (st3.piles.getD pileIndex defaultPile).cards ++
      (mgLoop st3 guess pileIndex).drawn
    isFaceUp := if (mgLoop st3 guess pileIndex).resolved &&
        !(mgLoop st3 guess pileIndex).correct then false
      else (st3.piles.getD pileIndex defaultPile).isFaceUp }

/-- The pile list committed by `makeGuessDraw`. -/
def mgPiles (st3 : GameSessionRecord) (guess : GuessChoice)
    (pileIndex : Nat) : List TablePile :=
  st3.piles.set pileIndex (mgNewPile st3 guess pileIndex)

/-- `openPiles` of `makeGuess`: face-up piles after the update. -/
def mgOpenPiles (st3 : GameSessionRecord) (guess : GuessChoice)
    (pileIndex : Nat) : Nat :=
  ((mgPiles st3 guess pileIndex).filter (fun pile => pile.isFaceUp)).length

/-- The `status`/`outcome` decision after the draw loop of `makeGuess`. -/
def mgStatusOutcome (st3 : GameSessionRecord) (guess : GuessChoice)
    (pileIndex : Nat) : SessionStatus × Option GameOutcome :=
  if !(mgLoop st3 guess pileIndex).resolved &&
      (mgLoop st3 guess pileIndex).deckAfter.isEmpty then
    if mgOpenPiles st3 guess pileIndex > 0 then (.complete, some .players)
    else (.complete, some .deck)
  else
    if mgOpenPiles st3 guess pileIndex = 0 then (.complete, some .deck)
    else if (mgLoop st3 guess pileIndex).deckAfter.isEmpty then
      (.complete, some .players)
    else (if st3.status = .waiting then SessionStatus.active else st3.status,
      st3.outcome)

/-- The turn index committed by `makeGuessDraw`. -/
def mgNextIndex (players : List Player) (currentIndex : Nat) : Nat :=
  (findNextEligibleIndex players (currentIndex : Int) true none).getD
    currentIndex

theorem makeGuessDraw_state_eq (now : Int) (st3 : GameSessionRecord)
    (players : List Player) (guess : GuessChoice)
    (currentIndex pileIndex : Nat) :
    (makeGuessDraw now st3 players guess currentIndex pileIndex).1 =
      { st3 with
        players := players
        piles := mgPiles st3 guess pileIndex
        deck := (mgLoop st3 guess pileIndex).deckAfter
        turnIndex := (mgNextIndex players currentIndex : Int)
        status := (mgStatusOutcome st3 guess pileIndex).1
        outcome := (mgStatusOutcome st3 guess pileIndex).2
        turnStartedAt := if (mgStatusOutcome st3 guess pileIndex).1 = .complete
          then st3.turnStartedAt else now
        updatedAt := now } := rfl

theorem makeGuessDraw_ok (now : Int) (st3 : GameSessionRecord)
    (players : List Player) (guess : GuessChoice)
    (currentIndex pileIndex : Nat) :
    ∃ r, (makeGuessDraw now st3 players guess currentIndex pileIndex).2 = .ok r
      ∧ r.correct = (mgLoop st3 guess pileIndex).correct :=
  ⟨_, rfl, rfl⟩

theorem findNextEligibleFrom_eligible (players : List Player) (ci : Int)
    (ro : Bool) (offset remaining k : Nat)
    (h : findNextEligibleFrom players ci ro offset remaining = some k) :
    ∃ p, players[k]? = some p ∧ eligiblePlayer ro p = true := by
  induction remaining generalizing offset with
  | zero => cases h
  | succ n ih =>
    rw [findNextEligibleFrom] at h
    rcases hg : getAtInt players ((ci + (offset : Int)).tmod players.length)
      with _ | p
    · rw [hg] at h
      exact ih (offset + 1) h
    · simp only [hg] at h
      by_cases he : eligiblePlayer ro p = true
      · rw [if_pos he] at h
        obtain rfl := Option.some.inj h
        refine ⟨p, ?_, he⟩
        unfold getAtInt at hg
        split at hg
        · exact hg
        · cases hg
      · rw [if_neg he] at h
        exact ih (offset + 1) h

theorem findNextEligibleIndex_eligible (players : List Player) (ci : Int)
    (ro : Bool) (k : Nat)
    (h : findNextEligibleIndex players ci ro none = some k) :
    ∃ p, players[k]? = some p ∧ eligiblePlayer ro p = true := by
  unfold findNextEligibleIndex at h
  split at h
  · cases h
  · exact findNextEligibleFrom_eligible players ci ro 1 players.length k h

theorem mgStatusOutcome_spec (st3 : GameSessionRecord) (guess : GuessChoice)
    (pileIndex : Nat) (hstatus : ¬st3.status = .complete) :
    (((mgStatusOutcome st3 guess pileIndex).1 = .complete ∧
      (mgStatusOutcome st3 guess pileIndex).2 = some .deck) ↔
      mgOpenPiles st3 guess pileIndex = 0) ∧
    (((mgStatusOutcome st3 guess pileIndex).1 = .complete ∧
      (mgStatusOutcome st3 guess pileIndex).2 = some .players) ↔
      (0 < mgOpenPiles st3 guess pileIndex ∧
        (mgLoop st3 guess pileIndex).deckAfter = [])) ∧
    (¬(mgStatusOutcome st3 guess pileIndex).1 = .complete →
      (mgStatusOutcome st3 guess pileIndex).1 = .active) := by
  unfold mgStatusOutcome
  by_cases h1 : (!(mgLoop st3 guess pileIndex).resolved &&
      (mgLoop st3 guess pileIndex).deckAfter.isEmpty) = true
  · rw [if_pos h1]
    have hde : (mgLoop st3 guess pileIndex).deckAfter = [] :=
      List.isEmpty_iff.mp (Bool.and_elim_right h1)
    by_cases h2 : mgOpenPiles st3 guess pileIndex > 0
    · rw [if_pos h2]
      refine ⟨?_, ?_, ?_⟩ <;> simp [hde, h2, Nat.pos_iff_ne_zero.mp h2]
    · rw [if_neg h2]
      refine ⟨?_, ?_, ?_⟩ <;> simp [hde, Nat.eq_zero_of_not_pos h2]
  · rw [if_neg h1]
    by_cases h3 : mgOpenPiles st3 guess pileIndex = 0
    · rw [if_pos h3]
      refine ⟨?_, ?_, ?_⟩ <;> simp [h3]
    · rw [if_neg h3]
      by_cases h4 : (mgLoop st3 guess pileIndex).deckAfter.isEmpty = true
      · rw [if_pos h4]
        have hde : (mgLoop st3 guess pileIndex).deckAfter = [] :=
          List.isEmpty_iff.mp h4
        refine ⟨?_, ?_, ?_⟩ <;> simp [hde, h3, Nat.pos_of_ne_zero h3]
      · rw [if_neg h4]
        have hde : ¬(mgLoop st3 guess pileIndex).deckAfter = [] := by
          intro h0
          exact h4 (List.isEmpty_iff.mpr h0)
        constructor
        · constructor
          · rintro ⟨hc, -⟩
            exact absurd hc (by
              split
              · simp
              · exact hstatus)
          · intro h0
            exact absurd h0 h3
        constructor
        · constructor
          · rintro ⟨hc, -⟩
            exact absurd hc (by
              split
              · simp
              · exact hstatus)
          · rintro ⟨-, h0⟩
            exact absurd h0 hde
        · intro h0
          rcases hw : st3.status with _ | _ | _
          · simp [hw]
          · simp [hw]
          · exact absurd hw hstatus

/-- **C4.** After the draw loop of a successful `makeGuess`: a loop that
exhausted the deck unresolved reports the guess as correct; the session
completes with outcome `deck` exactly when no pile remains face-up,
completes with outcome `players` exactly when some pile is still face-up
but the deck is now empty, and otherwise stays in play with the turn
handed to the next active and online player. -/
theorem makeGuess_endgame_spec (now : Int) (shuffled : List Card)
    (st : GameSessionRecord) (playerName : String) (guess : GuessChoice)
    (pileId : String) (currentIndex pileIndex : Nat)
    (hrefresh : refreshHighLowIfIdle now shuffled st = st)
    (hstatus : ¬st.status = .complete)
    (hnorm : normalizePlayers st.players = st.players)
    (hprune : pruneStaleHighLowPlayers st.players st.playerLastSeen now
      = (st.players, []))
    (hcur : ensureTurnIndex st.players st.turnIndex true = some currentIndex)
    (hname : jsToLower (st.players.getD currentIndex defaultPlayer).name
      = jsToLower playerName)
    (hactive : (st.players.getD currentIndex defaultPlayer).isActive = true)
    (honline : (st.players.getD currentIndex defaultPlayer).isOnline = true)
    (hpile : st.piles.findIdx? (fun pile => pile.id == pileId) = some pileIndex)
    (hup : (st.piles.getD pileIndex defaultPile).isFaceUp = true)
    (hcards : ¬(st.piles.getD pileIndex defaultPile).cards.length = 0)
    (hdeckne : ¬st.deck.length = 0) :
    ∃ r, (makeGuess now shuffled st playerName guess pileId).2 = .ok r ∧
      ((drawLoop guess ((st.piles.getD pileIndex defaultPile).cards.getLastD
          defaultCard) st.deck).resolved = false → r.correct = true) ∧
      (((makeGuess now shuffled st playerName guess pileId).1.status = .complete ∧
        (makeGuess now shuffled st playerName guess pileId).1.outcome
          = some .deck) ↔
        ((makeGuess now shuffled st playerName guess pileId).1.piles.filter
          (fun pile => pile.isFaceUp)).length = 0) ∧
      (((makeGuess now shuffled st playerName guess pileId).1.status = .complete ∧
        (makeGuess now shuffled st playerName guess pileId).1.outcome
          = some .players) ↔
        (0 < ((makeGuess now shuffled st playerName guess pileId).1.piles.filter
            (fun pile => pile.isFaceUp)).length ∧
          (makeGuess now shuffled st playerName guess pileId).1.deck = [])) ∧
      (¬(makeGuess now shuffled st playerName guess pileId).1.status = .complete →
        (makeGuess now shuffled st playerName guess pileId).1.status = .active ∧
        (makeGuess now shuffled st playerName guess pileId).1.turnIndex
          = ((findNextEligibleIndex st.players (currentIndex : Int) true
              none).getD currentIndex : Nat)) ∧
      (∀ k, findNextEligibleIndex st.players (currentIndex : Int) true none
          = some k →
        ∃ p, st.players[k]? = some p ∧ p.isActive = true ∧ p.isOnline = true) := by
  have heq := makeGuess_success_eq now shuffled st playerName guess pileId
    currentIndex pileIndex hrefresh hstatus hnorm hprune hcur hname hactive
    honline hpile hup hcards hdeckne
  rw [heq, makeGuessDraw_state_eq]
  obtain ⟨r, hok, hcorr⟩ :=
    makeGuessDraw_ok now st st.players guess currentIndex pileIndex
  obtain ⟨hdeckIff, hplayersIff, hact⟩ :=
    mgStatusOutcome_spec st guess pileIndex hstatus
  refine ⟨r, hok, ?_, ?_, ?_, ?_, ?_⟩
  · intro hres
    rw [hcorr]
    exact drawLoop_unresolved_correct guess _ _ hres
  · simpa only [mgOpenPiles, mgPiles] using hdeckIff
  · simpa only [mgOpenPiles, mgPiles, List.isEmpty_iff] using hplayersIff
  · intro h0
    refine ⟨hact h0, ?_⟩
    rfl
  · intro k hk
    obtain ⟨p, hp, he⟩ := findNextEligibleIndex_eligible st.players
      (currentIndex : Int) true k hk
    refine ⟨p, hp, ?_⟩
    simpa [eligiblePlayer] using he

/-- Witness for C4: on `hlGuessState` the correct higher guess keeps the
session active and the turn stays with the only player. -/
theorem makeGuess_endgame_spec_witness :
    (makeGuess 1000 [] hlGuessState "ray" .higher "pile-0").1.status
      = .active ∧
    (makeGuess 1000 [] hlGuessState "ray" .higher "pile-0").1.turnIndex = 0 := by
  obtain ⟨r, hok, hunres, hdeckIff, hplayersIff, hcont, hnext⟩ :=
    makeGuess_endgame_spec 1000 [] hlGuessState "ray" .higher "pile-0" 0 0
      (by decide) (by decide) (by decide) (by decide) (by decide) (by decide)
      (by decide) (by decide) (by decide) (by decide) (by decide) (by decide)
  exact ⟨(hcont (by decide)).1, ((hcont (by decide)).2).trans (by decide)⟩

/-! ## C7: the draw transaction of Old Maid -/

/-- The draw index choice of `drawOldMaidCard`: a requested in-range
position, else the random pick. -/
def omDrawIndex (requestedPosition : Option Nat) (handLen randPick : Nat) :
    Nat :=
  match requestedPosition with
  | some p => if p < handLen then p else randPick
  | none => randPick

/-- The post-draw roster of `drawOldMaidCard` when the target is a player
other than the caller: the target loses the card at `dIdx`, the caller
takes the drawn card `c` and re-reduces their hand into pairs. -/
def omDrawPlayers1 (players : List OldMaidPlayer) (i j dIdx : Nat)
    (c : Card) : List OldMaidPlayer :=
  let target := players.getD j defaultOldMaidPlayer
  let activeP := players.getD i defaultOldMaidPlayer
  let rp := resolveOldMaidPairs (activeP.hand ++ [c])
  (players.set j
      { target with
        hand := target.hand.eraseIdx dIdx
        isSafe := (target.hand.eraseIdx dIdx).isEmpty }).set i
    { activeP with
      hand := rp.1
      discards := activeP.discards ++ rp.2
      isSafe := rp.1.isEmpty }

/-- The loser detection of `drawOldMaidCard`: the sole remaining
card-holder, if exactly one player still holds cards. -/
def omDrawLoser (players1 : List OldMaidPlayer) : Option String :=
  if (players1.filter (fun p => p.hand.length != 0)).length = 1 then
    some ((players1.filter (fun p => p.hand.length != 0)).getD 0
      defaultOldMaidPlayer).name
  else none

/-- The turn handoff of `drawOldMaidCard`: the loser's seat when the game
ends, else the next card-holder after the caller. -/
def omDrawNextTurn (players1 : List OldMaidPlayer) (i : Nat) : Int :=
  match omDrawLoser players1 with
  | some l =>
    match players1.findIdx? (fun p => p.name == l) with
    | some k => (k : Nat)
    | none => -1
  | none =>
    match findNextPlayerWithCards players1 i with
    | some k => (k : Nat)
    | none => (i : Nat)

theorem findNextPlayerWithCardsFrom_spec (players : List OldMaidPlayer)
    (startIndex : Nat) (offset rem k : Nat)
    (h : findNextPlayerWithCardsFrom players startIndex offset rem = some k) :
    ∃ off, offset ≤ off ∧ off < offset + rem ∧
      k = (startIndex + off) % players.length ∧
      (∃ p, players[k]? = some p ∧ p.hand.length ≠ 0) ∧
      (∀ j, offset ≤ j → j < off →
        ∀ p, players[(startIndex + j) % players.length]? = some p →
          p.hand.length = 0) := by
  induction rem generalizing offset with
  | zero => cases h
  | succ n ih =>
    rw [findNextPlayerWithCardsFrom] at h
    rcases hg : players[(startIndex + offset) % players.length]? with _ | p
    · simp only [hg] at h
      obtain ⟨off, h1, h2, h3, h4, h5⟩ := ih (offset + 1) h
      refine ⟨off, by omega, by omega, h3, h4, ?_⟩
      intro j hj1 hj2 p hp
      rcases Nat.eq_or_lt_of_le hj1 with rfl | hj
      · rw [hp] at hg
        cases hg
      · exact h5 j hj hj2 p hp
    · simp only [hg] at h
      by_cases hc : (p.hand.length != 0) = true
      · rw [if_pos hc] at h
        obtain rfl := Option.some.inj h
        refine ⟨offset, le_refl _, by omega, rfl, ⟨p, hg, by simpa using hc⟩,
          ?_⟩
        intro j hj1 hj2
        omega
      · rw [if_neg hc] at h
        obtain ⟨off, h1, h2, h3, h4, h5⟩ := ih (offset + 1) h
        refine ⟨off, by omega, by omega, h3, h4, ?_⟩
        intro j hj1 hj2 q hq
        rcases Nat.eq_or_lt_of_le hj1 with rfl | hj
        · obtain rfl := Option.some.inj (hq.symm.trans hg)
          simpa using hc
        · exact h5 j hj hj2 q hq

theorem findNextPlayerWithCards_spec (players : List OldMaidPlayer)
    (startIndex k : Nat)
    (h : findNextPlayerWithCards players startIndex = some k) :
    ∃ off, 1 ≤ off ∧ off ≤ players.length ∧
      k = (startIndex + off) % players.length ∧
      (∃ p, players[k]? = some p ∧ p.hand.length ≠ 0) ∧
      (∀ j, 1 ≤ j → j < off →
        ∀ p, players[(startIndex + j) % players.length]? = some p →
          p.hand.length = 0) := by
  unfold findNextPlayerWithCards at h
  split at h
  · cases h
  · obtain ⟨off, h1, h2, h3, h4, h5⟩ :=
      findNextPlayerWithCardsFrom_spec players startIndex 1 players.length k h
    exact ⟨off, h1, by omega, h3, h4, h5⟩

theorem drawOldMaidCard_success_eq (now : Int) (st : OldMaidSessionRecord)
    (playerName : String) (pos : CardPositionInput) (randPick : Nat)
    (i j dIdx : Nat) (c : Card)
    (hact : st.status = .active)
    (hpr : pruneOldMaidPlayersInTransaction now st = (st, 0))
    (hidx : st.players.findIdx? (fun p => p.name == playerName) = some i)
    (hturn : (i : Int) = st.turnIndex)
    (htgt : findNextPlayerWithCards st.players i = some j)
    (hne : ¬i = j)
    (hdi : omDrawIndex (normalizeCardPosition pos)
      (st.players.getD j defaultOldMaidPlayer).hand.length randPick = dIdx)
    (hdrawn : (st.players.getD j defaultOldMaidPlayer).hand[dIdx]? = some c) :
    drawOldMaidCard now st playerName pos randPick =
      ({ st with
         players := omDrawPlayers1 st.players i j dIdx c
         turnIndex := omDrawNextTurn (omDrawPlayers1 st.players i j dIdx c) i
         updatedAt := now
         status := if (omDrawLoser (omDrawPlayers1 st.players i j dIdx c)).isSome
           then .complete else .active
         loser := omDrawLoser (omDrawPlayers1 st.players i j dIdx c)
         playerLastSeen := setSeen st.playerLastSeen playerName now },
       .ok ()) := by
  have hlen : ¬(st.players.getD j defaultOldMaidPlayer).hand.length = 0 := by
    intro h0
    rw [List.getElem?_eq_none (by omega)] at hdrawn
    cases hdrawn
  simp only [drawOldMaidCard, hact, hpr, hidx, htgt, ← hturn]
  rw [if_neg (show ¬SessionStatus.active ≠ SessionStatus.active by simp),
    if_neg (show ¬((i : Int) ≠ (i : Int)) by simp), if_neg hlen]
  rcases hp : normalizeCardPosition pos with _ | p <;>
    simp only [omDrawIndex, hp] at hdi <;>
    simp only [hp, hdi, hdrawn, if_neg hne, Option.toList_some,
      omDrawPlayers1, omDrawLoser, omDrawNextTurn]

/-- **C7.** `drawOldMaidCard` in an active session: a caller off turn is
rejected with `not_your_turn` and the state is unchanged; the target is
the first player after the caller, scanning circularly, who still holds
cards; on a successful draw one card leaves the target's hand at the draw
index, the caller's hand absorbs it and is re-reduced into equal-rank
pairs, and if exactly one player then holds cards the session completes
with that player as loser, else the turn moves to the next card-holder
after the caller. -/
theorem drawOldMaid_turn_spec (now : Int) (st : OldMaidSessionRecord)
    (playerName : String) (pos : CardPositionInput) (randPick : Nat) (i : Nat)
    (hact : st.status = .active)
    (hpr : pruneOldMaidPlayersInTransaction now st = (st, 0))
    (hidx : st.players.findIdx? (fun p => p.name == playerName) = some i) :
    ((i : Int) ≠ st.turnIndex →
      drawOldMaidCard now st playerName pos randPick
        = (st, .error "not_your_turn")) ∧
    (∀ j, findNextPlayerWithCards st.players i = some j →
      ∃ off, 1 ≤ off ∧ off ≤ st.players.length ∧
        j = (i + off) % st.players.length ∧
        (∃ p, st.players[j]? = some p ∧ p.hand.length ≠ 0) ∧
        (∀ m, 1 ≤ m → m < off →
          ∀ p, st.players[(i + m) % st.players.length]? = some p →
            p.hand.length = 0)) ∧
    ((i : Int) = st.turnIndex →
      ∀ j dIdx c, findNextPlayerWithCards st.players i = some j → ¬i = j →
        omDrawIndex (normalizeCardPosition pos)
          (st.players.getD j defaultOldMaidPlayer).hand.length randPick
          = dIdx →
        (st.players.getD j defaultOldMaidPlayer).hand[dIdx]? = some c →
        ((drawOldMaidCard now st playerName pos randPick).2 = .ok () ∧
         (drawOldMaidCard now st playerName pos randPick).1.players
           = omDrawPlayers1 st.players i j dIdx c ∧
         (((omDrawPlayers1 st.players i j dIdx c).filter
             (fun p => p.hand.length != 0)).length = 1 →
           (drawOldMaidCard now st playerName pos randPick).1.status
             = .complete ∧
           (drawOldMaidCard now st playerName pos randPick).1.loser
             = some (((omDrawPlayers1 st.players i j dIdx c).filter
                 (fun p => p.hand.length != 0)).getD 0
                 defaultOldMaidPlayer).name) ∧
         (((omDrawPlayers1 st.players i j dIdx c).filter
             (fun p => p.hand.length != 0)).length ≠ 1 →
           (drawOldMaidCard now st playerName pos randPick).1.status
             = .active ∧
           (drawOldMaidCard now st playerName pos randPick).1.loser = none ∧
           (drawOldMaidCard now st playerName pos randPick).1.turnIndex
             = ((findNextPlayerWithCards (omDrawPlayers1 st.players i j dIdx c)
                 i).getD i : Nat)))) := by
  refine ⟨?_, ?_, ?_⟩
  · intro hneq
    simp only [drawOldMaidCard, hact, hpr, hidx]
    rw [if_neg (show ¬SessionStatus.active ≠ SessionStatus.active by simp),
      if_pos hneq]
  · intro j hj
    exact findNextPlayerWithCards_spec st.players i j hj
  · intro hturn j dIdx c htgt hne hdi hdrawn
    have heq := drawOldMaidCard_success_eq now st playerName pos randPick
      i j dIdx c hact hpr hidx hturn htgt hne hdi hdrawn
    rw [heq]
    refine ⟨rfl, rfl, ?_, ?_⟩
    · intro h1
      have hL : omDrawLoser (omDrawPlayers1 st.players i j dIdx c)
          = some (((omDrawPlayers1 st.players i j dIdx c).filter
              (fun p => p.hand.length != 0)).getD 0 defaultOldMaidPlayer).name := by
        rw [omDrawLoser, if_pos h1]
      exact ⟨by simp [hL], hL⟩
    · intro h1
      have hL : omDrawLoser (omDrawPlayers1 st.players i j dIdx c) = none := by
        rw [omDrawLoser, if_neg h1]
      refine ⟨by simp [hL], hL, ?_⟩
      show omDrawNextTurn (omDrawPlayers1 st.players i j dIdx c) i = _
      rw [omDrawNextTurn, hL]
      rcases hn : findNextPlayerWithCards (omDrawPlayers1 st.players i j dIdx c)
        i with _ | k <;> simp [hn]

/-- Witness for C7: on `omTwoPlayerState`, player "a" on turn draws the
first card of "b"'s hand; both still hold cards, so the game stays active
and the turn passes to "b". -/
theorem drawOldMaid_turn_spec_witness :
    (drawOldMaidCard 1000 omTwoPlayerState "a" (.finite 0) 0).2 = .ok () ∧
    (drawOldMaidCard 1000 omTwoPlayerState "a" (.finite 0) 0).1.status
      = .active ∧
    (drawOldMaidCard 1000 omTwoPlayerState "a" (.finite 0) 0).1.turnIndex
      = 1 := by
  obtain ⟨hwrong, hspec, hsucc⟩ :=
    drawOldMaid_turn_spec 1000 omTwoPlayerState "a" (.finite 0) 0 0
      rfl (by decide) (by decide)
  obtain ⟨hok, hpl, hone, hmulti⟩ := hsucc (by decide) 1 0 ⟨5, .diamonds, "5♦"⟩
    (by decide) (by decide) (by decide) (by decide)
  obtain ⟨hst, -, hturn⟩ := hmulti (by decide)
  exact ⟨hok, hst, hturn.trans (by decide)⟩

/-! ## C1: presence-driven completion of Old Maid -/

/-- A three-player active Old Maid state: "alice" holds the Joker, "bob"
holds nothing, "carol" holds a card but has not been seen for 300
seconds. -/
def omC1State : OldMaidSessionRecord :=
  { status := .active
    players :=
      [ { name := "alice", displayName := none, hand := [jokerCard],
          discards := [], isOnline := true, isSafe := false,
          idleWarning := false },
        { name := "bob", displayName := none, hand := [],
          discards := [], isOnline := true, isSafe := true,
          idleWarning := false },
        { name := "carol", displayName := none, hand := [⟨5, .diamonds, "5♦"⟩],
          discards := [], isOnline := true, isSafe := false,
          idleWarning := false } ]
    turnIndex := 0
    createdAt := 0
    updatedAt := 990
    loser := none
    playerLastSeen := [("alice", 990), ("bob", 990), ("carol", 700)]
    shuffleLock := none }

/-- Counterexample to C1 as stated: pruning stale "carol" out of
`omC1State` leaves "alice" as the only player holding cards, yet the game
stays active with no loser; and when empty-handed "bob" then reports
going offline, the game completes with "bob" — not the sole card-holder
"alice" — declared the loser. -/
theorem oldMaidPresence_loser_counterexample :
    ((pruneOldMaidPlayersInTransaction 1000 omC1State).1.status = .active ∧
     (pruneOldMaidPlayersInTransaction 1000 omC1State).1.loser = none ∧
     ((pruneOldMaidPlayersInTransaction 1000 omC1State).1.players.filter
        (fun p => p.hand.length != 0)).map (fun p => p.name) = ["alice"]) ∧
    ((reportOldMaidPresence 1000 omC1State "bob" false).status = .complete ∧
     (reportOldMaidPresence 1000 omC1State "bob" false).loser = some "bob" ∧
     ((reportOldMaidPresence 1000 omC1State "bob" false).players.filter
        (fun p => p.hand.length != 0)).map (fun p => p.name) = ["alice"]) := by
  decide

/-- **C1 (amended).** During an active Old Maid game an explicit offline
report by a present, online player completes the session with the
*reporting* player as the loser, regardless of who holds cards; staleness
pruning completes an active session only when at most one player is left
in the session at all, declaring the sole survivor (or nobody) the
loser. -/
theorem oldMaidPresence_completion_spec (now : Int) (st : OldMaidSessionRecord)
    (playerName : String) (idx : Nat)
    (hrefresh : refreshOldMaidIfIdle now st = st)
    (hpr : pruneOldMaidPlayersInTransaction now st = (st, 0))
    (hact : st.status = .active)
    (hidx : st.players.findIdx? (fun p => p.name == playerName) = some idx)
    (honline : (st.players.getD idx defaultOldMaidPlayer).isOnline = true) :
    ((reportOldMaidPresence now st playerName false).status = .complete ∧
     (reportOldMaidPresence now st playerName false).loser = some playerName) ∧
    (∀ st2 : OldMaidSessionRecord, st2.status = .active →
      ¬((pruneOldMaidPlayers st2.players st2.playerLastSeen now
          STALE_PLAYER_SECONDS).2.1 = [] ∧
        (pruneOldMaidPlayers st2.players st2.playerLastSeen now
          STALE_PLAYER_SECONDS).2.2 = false) →
      (pruneOldMaidPlayers st2.players st2.playerLastSeen now
        STALE_PLAYER_SECONDS).1.length ≤ 1 →
      (pruneOldMaidPlayersInTransaction now st2).1.status = .complete ∧
      (pruneOldMaidPlayersInTransaction now st2).1.loser
        = ((pruneOldMaidPlayers st2.players st2.playerLastSeen now
            STALE_PLAYER_SECONDS).1.head?).map (fun p => p.name)) := by
  constructor
  · simp only [reportOldMaidPresence, hrefresh, hpr, hidx, honline]
    rw [if_pos (show True ∧ st.status = SessionStatus.active from
      ⟨trivial, hact⟩)]
    exact ⟨rfl, rfl⟩
  · intro st2 hact2 hch hle
    have hnw : ¬st2.status = SessionStatus.waiting := by
      rw [hact2]
      decide
    simp only [pruneOldMaidPlayersInTransaction, if_neg hnw, if_neg hch,
      if_pos hact2, if_pos hle]
    constructor <;> trivial

/-- Witness for the amended C1: on `omTwoPlayerState`, card-holding "b"
reporting offline ends the game with "b" as loser. -/
theorem oldMaidPresence_completion_spec_witness :
    (reportOldMaidPresence 1000 omTwoPlayerState "b" false).status
      = .complete ∧
    (reportOldMaidPresence 1000 omTwoPlayerState "b" false).loser
      = some "b" := by
  obtain ⟨⟨h1, h2⟩, -⟩ := oldMaidPresence_completion_spec 1000 omTwoPlayerState
    "b" 1 (by decide) (by decide) rfl (by decide) (by decide)
  exact ⟨h1, h2⟩

/-! ## C8: idempotent presence heartbeats -/

theorem find?_map_key (m : LastSeenMap) (n q : String) (t : Int) :
    List.find? (fun e => e.1 == q)
        (m.map (fun e => if e.1 == n then (e.1, t) else e))
      = (List.find? (fun e => e.1 == q) m).map
          (fun e => if e.1 == n then (e.1, t) else e) := by
  induction m with
  | nil => rfl
  | cons e rest ih =>
    have hkeyeq : ((if e.1 == n then (e.1, t) else e).1 == q) = (e.1 == q) := by
      by_cases he : e.1 = n <;> simp [he]
    by_cases hq : e.1 = q
    · rw [List.map_cons,
        List.find?_cons_of_pos _ (by rw [hkeyeq]; simp [hq]),
        List.find?_cons_of_pos _ (by simp [hq])]
      rfl
    · rw [List.map_cons,
        List.find?_cons_of_neg _ (by rw [hkeyeq]; simp [hq]),
        List.find?_cons_of_neg _ (by simp [hq])]
      exact ih

theorem lookupSeen_map_ne (m : LastSeenMap) (n q : String) (t : Int)
    (h : ¬q = n) :
    lookupSeen (m.map (fun e => if e.1 == n then (e.1, t) else e)) q
      = lookupSeen m q := by
  unfold lookupSeen
  rw [find?_map_key]
  rcases hf : List.find? (fun e => e.1 == q) m with _ | a
  · rw [hf]
    rfl
  · have ha : a.1 = q := by simpa using List.find?_some hf
    have hne : ¬a.1 = n := fun hh => h (ha ▸ hh)
    rw [hf]
    simp [hne]

theorem lookupSeen_map_self (m : LastSeenMap) (n : String) (t : Int)
    (h : m.any (fun e => e.1 == n) = true) :
    lookupSeen (m.map (fun e => if e.1 == n then (e.1, t) else e)) n
      = some t := by
  unfold lookupSeen
  rw [find?_map_key]
  have hsome : (List.find? (fun e => e.1 == n) m).isSome := by
    rw [List.find?_isSome]
    simpa using List.any_eq_true.mp h
  rcases hf : List.find? (fun e => e.1 == n) m with _ | a
  · rw [hf] at hsome
    cases hsome
  · have ha : a.1 = n := by simpa using List.find?_some hf
    rw [hf]
    simp [ha]

theorem lookupSeen_of_any_false (m : LastSeenMap) (n : String)
    (h : m.any (fun e => e.1 == n) = false) :
    lookupSeen m n = none := by
  unfold lookupSeen
  have : List.find? (fun e => e.1 == n) m = none := by
    rw [List.find?_eq_none]
    intro x hx
    have := List.any_eq_false.mp h x hx
    simpa using this
  rw [this]
  rfl

theorem lookupSeen_setSeen (m : LastSeenMap) (n q : String) (t : Int) :
    lookupSeen (setSeen m n t) q
      = if q = n then some t else lookupSeen m q := by
  unfold setSeen
  by_cases hany : m.any (fun e => e.1 == n) = true
  · rw [if_pos hany]
    by_cases hq : q = n
    · rw [if_pos hq, hq]
      exact lookupSeen_map_self m n t hany
    · rw [if_neg hq]
      exact lookupSeen_map_ne m n q t hq
  · rw [if_neg hany]
    have hnone : List.find? (fun e => e.1 == q) m = none ∨ ¬q = n := by
      by_cases hq : q = n
      · subst hq
        left
        rw [List.find?_eq_none]
        intro x hx
        have := List.any_eq_false.mp (Bool.eq_false_iff.mpr hany) x hx
        simpa using this
      · right
        exact hq
    by_cases hq : q = n
    · rw [if_pos hq]
      subst hq
      unfold lookupSeen
      rw [List.find?_append]
      rcases hnone with hn | hn
      · simp [hn, List.find?]
      · exact absurd rfl hn
    · rw [if_neg hq]
      unfold lookupSeen
      rw [List.find?_append]
      have h2 : List.find? (fun e => e.1 == q) [(n, t)] = none := by
        rw [List.find?_cons_of_neg _ (by
          simp
          exact fun hh => hq hh.symm)]
        rfl
      rw [h2]
      simp

theorem map_fix_eq_self {α : Type} (f : α → α) (l : List α)
    (h : ∀ a ∈ l, f a = a) : l.map f = l := by
  induction l with
  | nil => rfl
  | cons a rest ih =>
    rw [List.map_cons, h a (List.mem_cons_self a rest),
      ih (fun b hb => h b (List.mem_cons_of_mem a hb))]

theorem setSeen_entry_val (m : LastSeenMap) (n : String) (t : Int) :
    ∀ e ∈ setSeen m n t, e.1 = n → e.2 = t := by
  intro e he hkey
  unfold setSeen at he
  by_cases hany : m.any (fun e => e.1 == n) = true
  · rw [if_pos hany] at he
    obtain ⟨x, -, hx⟩ := List.mem_map.mp he
    by_cases hxn : x.1 = n
    · rw [if_pos (by simpa using hxn)] at hx
      rw [← hx]
    · rw [if_neg (by simpa using hxn)] at hx
      exact absurd (hx ▸ hkey) hxn
  · rw [if_neg hany] at he
    rcases List.mem_append.mp he with hm | hm
    · have := List.any_eq_false.mp (Bool.eq_false_iff.mpr hany) e hm
      exact absurd hkey (by simpa using this)
    · rw [List.mem_singleton.mp hm]

theorem setSeen_any (m : LastSeenMap) (n : String) (t : Int) :
    (setSeen m n t).any (fun e => e.1 == n) = true := by
  unfold setSeen
  by_cases hany : m.any (fun e => e.1 == n) = true
  · rw [if_pos hany]
    obtain ⟨x, hx, hxn⟩ := List.any_eq_true.mp hany
    refine List.any_eq_true.mpr ⟨(x.1, t), List.mem_map.mpr ⟨x, hx, ?_⟩, hxn⟩
    rw [if_pos hxn]
  · rw [if_neg hany]
    exact List.any_eq_true.mpr ⟨(n, t), List.mem_append_right _ (by simp), by simp⟩

theorem setSeen_setSeen (m : LastSeenMap) (n : String) (t : Int) :
    setSeen (setSeen m n t) n t = setSeen m n t := by
  rw [setSeen, if_pos (setSeen_any m n t)]
  refine map_fix_eq_self _ _ (fun e he => ?_)
  by_cases hkey : e.1 = n
  · rw [if_pos (by simpa using hkey)]
    have := setSeen_entry_val m n t e he hkey
    rw [← this]
  · rw [if_neg (by simpa using hkey)]

theorem pruneStale_noop_setSeen (players : List Player) (m : LastSeenMap)
    (now : Int) (name : String)
    (h : pruneStaleHighLowPlayers players m now = (players, [])) :
    pruneStaleHighLowPlayers players (setSeen m name now) now
      = (players, []) := by
  induction players with
  | nil => rfl
  | cons p rest ih =>
    rw [pruneStaleHighLowPlayers] at h
    rcases hs : resolveLastSeenSeconds m p.name with _ | t
    · simp only [hs] at h
      exact absurd (congrArg Prod.snd h) (by simp)
    · simp only [hs] at h
      by_cases hgt : now - t > STALE_PLAYER_SECONDS
      · rw [if_pos hgt] at h
        exact absurd (congrArg Prod.snd h) (by simp)
      · rw [if_neg hgt] at h
        have hfst := congrArg Prod.fst h
        simp only [] at hfst
        have hhead : { p with
            isOnline := decide (now - t ≤ STALE_PLAYER_SECONDS) } = p :=
          (List.cons.injEq _ _ _ _ ▸ hfst).1
        have htail : (pruneStaleHighLowPlayers rest m now).1 = rest :=
          (List.cons.injEq _ _ _ _ ▸ hfst).2
        have hsnd : (pruneStaleHighLowPlayers rest m now).2 = [] := by
          simpa using congrArg Prod.snd h
        have hrest : pruneStaleHighLowPlayers rest m now = (rest, []) := by
          conv_rhs => rw [← htail, ← hsnd]
        have hs2 : resolveLastSeenSeconds (setSeen m name now) p.name
            = some (if p.name = name then now else t) := by
          show lookupSeen (setSeen m name now) p.name = _
          rw [lookupSeen_setSeen]
          by_cases hpn : p.name = name
          · rw [if_pos hpn, if_pos hpn]
          · rw [if_neg hpn, if_neg hpn]
            exact hs
        rw [pruneStaleHighLowPlayers]
        simp only [hs2, ih hrest]
        have hle : ¬now - (if p.name = name then now else t)
            > STALE_PLAYER_SECONDS := by
          by_cases hpn : p.name = name
          · rw [if_pos hpn]
            simp [STALE_PLAYER_SECONDS]
          · rw [if_neg hpn]
            exact hgt
        rw [if_neg hle]
        have hdec : decide (now - (if p.name = name then now else t)
            ≤ STALE_PLAYER_SECONDS) = true := decide_eq_true (not_lt.mp hle)
        have hdec0 : decide (now - t ≤ STALE_PLAYER_SECONDS) = true :=
          decide_eq_true (not_lt.mp hgt)
        rw [hdec0] at hhead
        rw [hdec, hhead]

theorem reportPresence_noop (now : Int) (shuffled : List Card)
    (st : GameSessionRecord) (playerName : String) (idx : Nat)
    (hrefresh : refreshHighLowIfIdle now shuffled st = st)
    (hnorm : normalizePlayers st.players = st.players)
    (hprune : pruneStaleHighLowPlayers st.players st.playerLastSeen now
      = (st.players, []))
    (hfind : findPlayerIndex st.players playerName = some idx)
    (honline : (st.players.getD idx defaultPlayer).isOnline = true) :
    reportPresence now shuffled st playerName true
      = ({ st with
           updatedAt := now
           playerLastSeen := setSeen st.playerLastSeen playerName now },
         .ok (), []) := by
  have hch : playersChanged st.players = false := playersChanged_eq_false _ hnorm
  simp only [reportPresence, hrefresh, hnorm, hch, Bool.false_eq_true, if_false,
    prunePlayersInTransaction, hprune, eq_self_iff_true, if_true, hfind,
    honline]

/-- A fresh active High/Low state whose stored roster has "pat" marked
offline (though recently seen) and "quinn" inactive. -/
def hlC8State : GameSessionRecord :=
  { players := [{ name := "pat", displayName := some "pat",
                  isActive := true, isOnline := false },
                { name := "quinn", displayName := some "quinn",
                  isActive := false, isOnline := true }]
    deck := [⟨2, .clubs, "2♣"⟩]
    piles := []
    turnIndex := 0
    turnStartedAt := 990
    status := .active
    acesHigh := false
    createdAt := 900
    updatedAt := 990
    playerLastSeen := [("pat", 990), ("quinn", 990)]
    outcome := none }

/-- Counterexample to C8 as stated: "pat"'s stored flag is `false` and the
heartbeat reports `false` — the reported value equals the player's current
flag — yet `reportPresence` emits a disconnect log entry, because pruning
first rewrites the in-memory flag of every fresh player to `true` and the
no-op test compares against that value. -/
theorem reportPresence_idempotent_counterexample :
    (hlC8State.players.getD 0 defaultPlayer).isOnline = false ∧
    (reportPresence 1000 [] hlC8State "pat" false).2.2
      = [{ message := "pat went offline. Waiting for reconnection.",
           logType := .disconnect, player := some "pat" }] := by
  decide

/-- **C8 (amended).** For an *online* player, a `true` heartbeat writes
only `updatedAt` and that player's `playerLastSeen` entry, returns ok and
emits no log; a second identical heartbeat returns exactly the same state
— the same `isOnline` value and no second "came online" entry.  (For a
stored-offline but recently-seen player the no-op test instead compares
against the prune-recomputed in-memory flag, so an offline heartbeat is
not a no-op.) -/
theorem reportPresence_idempotent_spec (now : Int) (shuffled : List Card)
    (st : GameSessionRecord) (playerName : String) (idx : Nat)
    (hnz : now ≠ 0)
    (hrefresh : refreshHighLowIfIdle now shuffled st = st)
    (hnorm : normalizePlayers st.players = st.players)
    (hprune : pruneStaleHighLowPlayers st.players st.playerLastSeen now
      = (st.players, []))
    (hfind : findPlayerIndex st.players playerName = some idx)
    (honline : (st.players.getD idx defaultPlayer).isOnline = true) :
    reportPresence now shuffled st playerName true
      = ({ st with
           updatedAt := now
           playerLastSeen := setSeen st.playerLastSeen playerName now },
         .ok (), []) ∧
    reportPresence now shuffled
      { st with
        updatedAt := now
        playerLastSeen := setSeen st.playerLastSeen playerName now }
      playerName true
      = ({ st with
           updatedAt := now
           playerLastSeen := setSeen st.playerLastSeen playerName now },
         .ok (), []) ∧
    ((reportPresence now shuffled st playerName true).1.players.getD idx
      defaultPlayer).isOnline = true := by
  have h1 := reportPresence_noop now shuffled st playerName idx hrefresh hnorm
    hprune hfind honline
  have hrefresh2 : refreshHighLowIfIdle now shuffled
      { st with
        updatedAt := now
        playerLastSeen := setSeen st.playerLastSeen playerName now }
      = { st with
          updatedAt := now
          playerLastSeen := setSeen st.playerLastSeen playerName now } := by
    rw [refreshHighLowIfIdle,
      if_pos ⟨hnz, by simp [STALE_GAME_SECONDS]⟩]
  have hprune2 : pruneStaleHighLowPlayers st.players
      (setSeen st.playerLastSeen playerName now) now = (st.players, []) :=
    pruneStale_noop_setSeen st.players st.playerLastSeen now playerName hprune
  have h2 := reportPresence_noop now shuffled
    { st with
      updatedAt := now
      playerLastSeen := setSeen st.playerLastSeen playerName now }
    playerName idx hrefresh2 hnorm hprune2 hfind honline
  have hss : setSeen (setSeen st.playerLastSeen playerName now) playerName now
      = setSeen st.playerLastSeen playerName now :=
    setSeen_setSeen st.playerLastSeen playerName now
  refine ⟨h1, ?_, ?_⟩
  · rw [h2]
    simp only [hss]
  · rw [h1]
    exact honline

/-- Witness for the amended C8: on `hlGuessState`, two consecutive online
heartbeats from "ray" each commit only the timestamp refresh and emit no
log. -/
theorem reportPresence_idempotent_spec_witness :
    reportPresence 1000 [] hlGuessState "ray" true
      = ({ hlGuessState with
           updatedAt := 1000
           playerLastSeen := setSeen hlGuessState.playerLastSeen "ray" 1000 },
         .ok (), []) ∧
    reportPresence 1000 []
      { hlGuessState with
        updatedAt := 1000
        playerLastSeen := setSeen hlGuessState.playerLastSeen "ray" 1000 }
      "ray" true
      = ({ hlGuessState with
           updatedAt := 1000
           playerLastSeen := setSeen hlGuessState.playerLastSeen "ray" 1000 },
         .ok (), []) := by
  obtain ⟨h1, h2, -⟩ := reportPresence_idempotent_spec 1000 [] hlGuessState
    "ray" 0 (by decide) (by decide) (by decide) (by decide) (by decide)
    (by decide)
  exact ⟨h1, h2⟩

/-! ## C2: Old Maid card conservation -/

/-- Total cards held by a bucket list. -/
def sumLens (groups : List (Nat × List Card)) : Nat :=
  (groups.map (fun g => g.2.length)).sum

theorem pairsFromRev_count (l : List Card) :
    2 * (pairsFromRev l).1.length + (pairsFromRev l).2.toList.length
      = l.length := by
  induction l using pairsFromRev.induct with
  | case1 => rfl
  | case2 a => rfl
  | case3 a b rest ih =>
    simp only [pairsFromRev, List.length_cons]
    omega

theorem addToRankGroups_keys (groups : List (Nat × List Card)) (c : Card) :
    (addToRankGroups groups c).map Prod.fst =
      if groups.any (fun g => g.1 == c.rank) then groups.map Prod.fst
      else groups.map Prod.fst ++ [c.rank] := by
  unfold addToRankGroups
  by_cases hany : groups.any (fun g => g.1 == c.rank) = true
  · rw [if_pos hany, if_pos hany, List.map_map]
    refine List.map_congr_left (fun g hg => ?_)
    by_cases hk : g.1 = c.rank <;> simp [hk]
  · rw [if_neg hany, if_neg hany, List.map_append]
    rfl

theorem addToRankGroups_nodup (groups : List (Nat × List Card)) (c : Card)
    (hnd : (groups.map Prod.fst).Nodup) :
    ((addToRankGroups groups c).map Prod.fst).Nodup := by
  rw [addToRankGroups_keys]
  by_cases hany : groups.any (fun g => g.1 == c.rank) = true
  · rw [if_pos hany]
    exact hnd
  · rw [if_neg hany]
    have hmem : c.rank ∉ groups.map Prod.fst := by
      intro hmem
      obtain ⟨g, hg, hgk⟩ := List.mem_map.mp hmem
      exact hany (List.any_eq_true.mpr ⟨g, hg, by simp [hgk]⟩)
    have hmem2 : ∀ x : List Card, (c.rank, x) ∉ groups := by
      intro x hx
      exact hmem (List.mem_map.mpr ⟨(c.rank, x), hx, rfl⟩)
    simpa [List.nodup_append] using ⟨hnd, hmem2⟩

theorem addToRankGroups_sum (groups : List (Nat × List Card)) (c : Card)
    (hnd : (groups.map Prod.fst).Nodup) :
    sumLens (addToRankGroups groups c) = sumLens groups + 1 := by
  unfold addToRankGroups
  by_cases hany : groups.any (fun g => g.1 == c.rank) = true
  · rw [if_pos hany]
    induction groups with
    | nil => cases hany
    | cons g0 rest ih =>
      by_cases hk : g0.1 = c.rank
      · have hnotin : ∀ g ∈ rest, (if g.1 == c.rank then (g.1, g.2 ++ [c])
            else g) = g := by
          intro g hg
          have : g.1 ≠ c.rank := by
            intro he
            have : g0.1 ∈ rest.map Prod.fst := by
              rw [hk, ← he]
              exact List.mem_map.mpr ⟨g, hg, rfl⟩
            exact (List.nodup_cons.mp hnd).1 this
          rw [if_neg (by simpa using this)]
        rw [List.map_cons, if_pos (by simpa using hk),
          map_fix_eq_self _ rest hnotin]
        simp only [sumLens, List.map_cons, List.sum_cons, List.length_append,
          List.length_cons, List.length_nil]
        omega
      · have hany2 : rest.any (fun g => g.1 == c.rank) = true := by
          rcases List.any_eq_true.mp hany with ⟨g, hg, hgk⟩
          rcases List.mem_cons.mp hg with rfl | hgr
          · exact absurd (by simpa using hgk) hk
          · exact List.any_eq_true.mpr ⟨g, hgr, hgk⟩
        have ihh := ih (List.Nodup.of_cons hnd) hany2
        rw [List.map_cons, if_neg (by simpa using hk)]
        simp only [sumLens, List.map_cons, List.sum_cons] at ihh ⊢
        omega
  · rw [if_neg hany]
    simp [sumLens]

theorem rankGroups_aux (cards : List Card) (groups : List (Nat × List Card))
    (hnd : (groups.map Prod.fst).Nodup) :
    ((cards.foldl addToRankGroups groups).map Prod.fst).Nodup ∧
    sumLens (cards.foldl addToRankGroups groups)
      = sumLens groups + cards.length := by
  induction cards generalizing groups with
  | nil => exact ⟨hnd, rfl⟩
  | cons c rest ih =>
    obtain ⟨h1, h2⟩ := ih (addToRankGroups groups c)
      (addToRankGroups_nodup groups c hnd)
    refine ⟨h1, ?_⟩
    rw [List.foldl_cons]
    rw [h2, addToRankGroups_sum groups c hnd, List.length_cons]
    omega

theorem pairStep_count (groups : List (Nat × List Card))
    (a : List OldMaidPairRecord) (b : List Card) :
    2 * (groups.foldl
        (fun acc g =>
          let pr := pairsFromRev g.2.reverse
          (acc.1 ++ pr.1, acc.2 ++ pr.2.toList))
        (a, b)).1.length +
      (groups.foldl
        (fun acc g =>
          let pr := pairsFromRev g.2.reverse
          (acc.1 ++ pr.1, acc.2 ++ pr.2.toList))
        (a, b)).2.length
      = 2 * a.length + b.length + sumLens groups := by
  induction groups generalizing a b with
  | nil => simp [sumLens]
  | cons g rest ih =>
    rw [List.foldl_cons]
    have hg := pairsFromRev_count g.2.reverse
    rw [List.length_reverse] at hg
    have ihh := ih (a ++ (pairsFromRev g.2.reverse).1)
      (b ++ (pairsFromRev g.2.reverse).2.toList)
    simp only [List.length_append] at ihh
    simp only [sumLens, List.map_cons, List.sum_cons] at ihh ⊢
    omega

theorem resolveOldMaidPairs_count (hand : List Card) :
    (resolveOldMaidPairs hand).1.length
      + 2 * (resolveOldMaidPairs hand).2.length = hand.length := by
  simp only [resolveOldMaidPairs, List.length_append]
  have hsplit := (List.filter_append_perm
    (fun c => c.suit == Suit.joker) hand).length_eq
  rw [List.length_append] at hsplit
  have hsum2 : sumLens (rankGroups
      (hand.filter (fun c => !(c.suit == Suit.joker))))
      = (hand.filter (fun c => !(c.suit == Suit.joker))).length := by
    have := (rankGroups_aux
      (hand.filter (fun c => !(c.suit == Suit.joker))) [] (by simp)).2
    simpa [rankGroups, sumLens] using this
  have hstep := pairStep_count
    (rankGroups (hand.filter (fun c => !(c.suit == Suit.joker)))) [] []
  simp only [List.length_nil] at hstep
  omega

theorem sum_map_set {α} (f : α → Nat) (l : List α) (k : Nat) (q d : α)
    (h : k < l.length) :
    ((l.set k q).map f).sum + f (l.getD k d) = (l.map f).sum + f q := by
  induction l generalizing k with
  | nil => cases h
  | cons a rest ih =>
    cases k with
    | zero =>
      simp only [List.set_cons_zero, List.getD_cons_zero, List.map_cons,
        List.sum_cons]
      omega
    | succ n =>
      have hn : n < rest.length := Nat.lt_of_succ_lt_succ h
      simp only [List.set_cons_succ, List.getD_cons_succ, List.map_cons,
        List.sum_cons]
      have := ih n hn
      omega

theorem sum_range_getD (g : List Card → Nat) (hs : List (List Card)) :
    ((List.range hs.length).map (fun i => g (hs.getD i []))).sum
      = (hs.map g).sum := by
  induction hs with
  | nil => rfl
  | cons h rest ih =>
    rw [List.length_cons, List.range_succ_eq_map, List.map_cons,
      List.sum_cons, List.map_map, List.getD_cons_zero]
    have hmap : (List.range rest.length).map
        ((fun i => g ((h :: rest).getD i [])) ∘ Nat.succ)
        = (List.range rest.length).map (fun i => g (rest.getD i [])) := by
      refine List.map_congr_left (fun i hi => ?_)
      simp [List.getD_cons_succ]
    rw [hmap, ih, List.map_cons, List.sum_cons]

theorem foldl_deal_length (n : Nat) (ps : List (Nat × Card))
    (hands : List (List Card)) :
    (ps.foldl (fun hs ic => hs.set (ic.1 % n) (hs.getD (ic.1 % n) [] ++ [ic.2]))
      hands).length = hands.length := by
  induction ps generalizing hands with
  | nil => rfl
  | cons p rest ih =>
    rw [List.foldl_cons, ih, List.length_set]

theorem foldl_deal_sum (n : Nat) (hn : 0 < n) (ps : List (Nat × Card))
    (hands : List (List Card)) (hl : hands.length = n) :
    ((ps.foldl (fun hs ic => hs.set (ic.1 % n) (hs.getD (ic.1 % n) [] ++ [ic.2]))
        hands).map List.length).sum
      = (hands.map List.length).sum + ps.length := by
  induction ps generalizing hands with
  | nil => rfl
  | cons p rest ih =>
    simp only [List.foldl_cons]
    have hidx : p.1 % n < hands.length := by
      rw [hl]
      exact Nat.mod_lt _ hn
    have hstep := @sum_map_set (List Card) List.length hands (p.1 % n)
      (hands.getD (p.1 % n) [] ++ [p.2]) [] hidx
    simp only [List.length_append, List.length_cons, List.length_nil]
      at hstep
    have hlen2 : (hands.set (p.1 % n)
        (hands.getD (p.1 % n) [] ++ [p.2])).length = n := by
      rw [List.length_set, hl]
    rw [ih _ hlen2, List.length_cons]
    omega

theorem dealHands_length (n : Nat) (deck : List Card) :
    (dealHands n deck).length = n := by
  unfold dealHands
  rw [foldl_deal_length, List.length_replicate]

theorem dealHands_sum (n : Nat) (hn : 0 < n) (deck : List Card) :
    ((dealHands n deck).map List.length).sum = deck.length := by
  unfold dealHands
  rw [foldl_deal_sum n hn deck.enum (List.replicate n [])
    (List.length_replicate n []), List.enum_length]
  have hz : ((List.replicate n ([] : List Card)).map List.length).sum = 0 := by
    induction n with
    | zero => rfl
    | succ k ih =>
      rw [List.replicate_succ, List.map_cons, List.sum_cons]
      simp [List.map_replicate]
  omega

theorem startOldMaid_total (now : Int) (shuffledDeck : List Card)
    (st : OldMaidSessionRecord) (playerName : String)
    (stout : OldMaidSessionRecord)
    (hok : startOldMaidSession now shuffledDeck st playerName
      = (stout, .ok ())) :
    totalCirculation stout = shuffledDeck.length := by
  unfold startOldMaidSession at hok
  simp only [] at hok
  split at hok
  · exact absurd (congrArg Prod.snd hok) (by simp)
  · split at hok
    · exact absurd (congrArg Prod.snd hok) (by simp)
    · split at hok
      · exact absurd (congrArg Prod.snd hok) (by simp)
      · rename_i hact hon hlt
        have hst := congrArg Prod.fst hok
        simp only [] at hst
        rw [← hst]
        simp only [totalCirculation, List.map_map]
        set st2 := (pruneOldMaidPlayersInTransaction now
          (refreshOldMaidIfIdle now st)).1 with hst2
        set E := (st2.players.filter (fun p => p.isOnline)).map
          resetEligiblePlayer with hE
        have hpos : 0 < E.length := by omega
        have hpoint : ∀ ip ∈ E.enum,
            (playerCardCount ∘ fun ip =>
              { ip.2 with
                hand := (resolveOldMaidPairs
                  ((dealHands E.length shuffledDeck).getD ip.1 [])).1
                discards := (resolveOldMaidPairs
                  ((dealHands E.length shuffledDeck).getD ip.1 [])).2
                isSafe := (resolveOldMaidPairs
                  ((dealHands E.length shuffledDeck).getD ip.1 [])).1.isEmpty })
              ip
            = ((fun i => ((dealHands E.length shuffledDeck).getD i
                []).length) ∘ Prod.fst) ip := by
          intro ip hip
          simp only [Function.comp, playerCardCount]
          exact resolveOldMaidPairs_count _
        rw [List.map_congr_left hpoint, ← List.map_map, List.enum_map_fst]
        have hsr := sum_range_getD List.length (dealHands E.length shuffledDeck)
        rw [dealHands_length] at hsr
        exact hsr.trans (dealHands_sum E.length hpos shuffledDeck)

theorem drawnCount (h : List Card) (d : Nat) :
    (h.eraseIdx d).length + (h[d]?).toList.length = h.length := by
  by_cases hd : d < h.length
  · rw [List.length_eraseIdx_of_lt hd, List.getElem?_eq_getElem hd]
    simp only [Option.toList_some, List.length_cons, List.length_nil]
    omega
  · rw [List.eraseIdx_of_length_le (le_of_not_lt hd),
      List.getElem?_eq_none (le_of_not_lt hd)]
    simp

theorem sum_set1 (players : List OldMaidPlayer) (i : Nat) (q : OldMaidPlayer)
    (hc : i < players.length)
    (hcount : playerCardCount q
      = playerCardCount (players.getD i defaultOldMaidPlayer)) :
    ((players.set i q).map playerCardCount).sum
      = (players.map playerCardCount).sum := by
  have := sum_map_set playerCardCount players i q defaultOldMaidPlayer hc
  omega

theorem sum_set2 (players : List OldMaidPlayer) (i j : Nat)
    (q r : OldMaidPlayer) (hc : i < players.length) (ht : j < players.length)
    (hne : ¬i = j)
    (hcount : playerCardCount q + playerCardCount r
      = playerCardCount (players.getD i defaultOldMaidPlayer)
        + playerCardCount (players.getD j defaultOldMaidPlayer)) :
    (((players.set j r).set i q).map playerCardCount).sum
      = (players.map playerCardCount).sum := by
  have h1 := sum_map_set playerCardCount (players.set j r) i q
    defaultOldMaidPlayer (by rw [List.length_set]; exact hc)
  have h2 := sum_map_set playerCardCount players j r defaultOldMaidPlayer ht
  have hgd : (players.set j r).getD i defaultOldMaidPlayer
      = players.getD i defaultOldMaidPlayer := by
    rw [List.getD_eq_getElem?_getD, List.getD_eq_getElem?_getD,
      List.getElem?_set_ne (fun hji => hne hji.symm)]
  rw [hgd] at h1
  omega

/-- The committed roster of a successful draw never changes the number of
cards in circulation, whether the caller draws from another player or
(single card-holder) from their own hand. -/
theorem drawCommit_sum (players : List OldMaidPlayer) (i j d : Nat)
    (hc : i < players.length) (ht : j < players.length) :
    ((if i = j then
        players.set i
          { players.getD i defaultOldMaidPlayer with
            hand := (resolveOldMaidPairs
              ((players.getD j defaultOldMaidPlayer).hand.eraseIdx d ++
                ((players.getD j defaultOldMaidPlayer).hand[d]?).toList)).1
            discards := (players.getD i defaultOldMaidPlayer).discards ++
              (resolveOldMaidPairs
                ((players.getD j defaultOldMaidPlayer).hand.eraseIdx d ++
                  ((players.getD j defaultOldMaidPlayer).hand[d]?).toList)).2
            isSafe := (resolveOldMaidPairs
              ((players.getD j defaultOldMaidPlayer).hand.eraseIdx d ++
                ((players.getD j defaultOldMaidPlayer).hand[d]?).toList)).1.isEmpty }
      else
        (players.set j
            { players.getD j defaultOldMaidPlayer with
              hand := (players.getD j defaultOldMaidPlayer).hand.eraseIdx d
              isSafe := ((players.getD j
                defaultOldMaidPlayer).hand.eraseIdx d).isEmpty }).set i
          { players.getD i defaultOldMaidPlayer with
            hand := (resolveOldMaidPairs
              ((players.getD i defaultOldMaidPlayer).hand ++
                ((players.getD j defaultOldMaidPlayer).hand[d]?).toList)).1
            discards := (players.getD i defaultOldMaidPlayer).discards ++
              (resolveOldMaidPairs
                ((players.getD i defaultOldMaidPlayer).hand ++
                  ((players.getD j defaultOldMaidPlayer).hand[d]?).toList)).2
            isSafe := (resolveOldMaidPairs
              ((players.getD i defaultOldMaidPlayer).hand ++
                ((players.getD j
                  defaultOldMaidPlayer).hand[d]?).toList)).1.isEmpty }).map
      playerCardCount).sum
      = (players.map playerCardCount).sum := by
  by_cases halias : i = j
  · rw [if_pos halias]
    subst halias
    refine sum_set1 players i _ hc ?_
    simp only [playerCardCount, List.length_append]
    have hrp := resolveOldMaidPairs_count
      ((players.getD i defaultOldMaidPlayer).hand.eraseIdx d ++
        ((players.getD i defaultOldMaidPlayer).hand[d]?).toList)
    rw [List.length_append] at hrp
    have hdc := drawnCount (players.getD i defaultOldMaidPlayer).hand d
    omega
  · rw [if_neg halias]
    refine sum_set2 players i j _ _ hc ht halias ?_
    simp only [playerCardCount, List.length_append]
    have hrp := resolveOldMaidPairs_count
      ((players.getD i defaultOldMaidPlayer).hand ++
        ((players.getD j defaultOldMaidPlayer).hand[d]?).toList)
    rw [List.length_append] at hrp
    have hdc := drawnCount (players.getD j defaultOldMaidPlayer).hand d
    omega

theorem totalCirculation_draw (now : Int) (st : OldMaidSessionRecord)
    (playerName : String) (pos : CardPositionInput) (randPick : Nat)
    (hpr : pruneOldMaidPlayersInTransaction now st = (st, 0)) :
    totalCirculation (drawOldMaidCard now st playerName pos randPick).1
      = totalCirculation st := by
  rcases hmk : drawOldMaidCard now st playerName pos randPick with ⟨stout, res⟩
  show totalCirculation stout = totalCirculation st
  unfold drawOldMaidCard at hmk
  rw [hpr] at hmk
  simp only [] at hmk
  have hleft : ∀ e : Except String Unit, (st, e) = (stout, res) →
      totalCirculation stout = totalCirculation st := by
    intro e he
    obtain ⟨h1, -⟩ := Prod.mk.injEq .. ▸ he
    rw [← h1]
  split at hmk
  · exact hleft _ hmk
  · split at hmk
    · exact hleft _ hmk
    · rename_i currentIndex hfound
      split at hmk
      · exact hleft _ hmk
      · split at hmk
        · exact hleft _ hmk
        · rename_i xopt targetIndex htgt
          split at hmk
          · exact hleft _ hmk
          · obtain ⟨h1, -⟩ := Prod.mk.injEq .. ▸ hmk
            rw [← h1]
            simp only [totalCirculation]
            have hc : currentIndex < st.players.length :=
              (List.findIdx?_eq_some_iff_getElem.mp hfound).1
            obtain ⟨-, -, -, -, ⟨tp, htp, -⟩, -⟩ :=
              findNextPlayerWithCards_spec st.players currentIndex
                targetIndex htgt
            have ht : targetIndex < st.players.length := by
              by_contra hge
              rw [List.getElem?_eq_none (le_of_not_lt hge)] at htp
              cases htp
            exact drawCommit_sum st.players currentIndex targetIndex _ hc ht

theorem totalCirculation_shuffle (nowSec nowMs : Int)
    (st : OldMaidSessionRecord) (playerName : String)
    (permutedHand : List Card)
    (hpr : pruneOldMaidPlayersInTransaction nowSec st = (st, 0))
    (hlen : ∀ idx, st.players.findIdx? (fun p => p.name == playerName)
        = some idx →
      permutedHand.length
        = (st.players.getD idx defaultOldMaidPlayer).hand.length) :
    totalCirculation
        (shuffleOldMaidHand nowSec nowMs st playerName permutedHand).1
      = totalCirculation st := by
  rcases hmk : shuffleOldMaidHand nowSec nowMs st playerName permutedHand
    with ⟨stout, res⟩
  show totalCirculation stout = totalCirculation st
  unfold shuffleOldMaidHand at hmk
  rw [hpr] at hmk
  simp only [] at hmk
  have hleft : ∀ e : Except String String, (st, e) = (stout, res) →
      totalCirculation stout = totalCirculation st := by
    intro e he
    obtain ⟨h1, -⟩ := Prod.mk.injEq .. ▸ he
    rw [← h1]
  split at hmk
  · exact hleft _ hmk
  · split at hmk
    · exact hleft _ hmk
    · split at hmk
      · exact hleft _ hmk
      · rename_i xopt index hfoundx
        split at hmk
        · exact hleft _ hmk
        · obtain ⟨h1, -⟩ := Prod.mk.injEq .. ▸ hmk
          rw [← h1]
          simp only [totalCirculation]
          have hc : index < st.players.length :=
            (List.findIdx?_eq_some_iff_getElem.mp hfoundx).1
          refine sum_set1 st.players index _ hc ?_
          simp only [playerCardCount, hlen index hfoundx]

theorem totalCirculation_presence (now : Int) (st : OldMaidSessionRecord)
    (playerName : String) (b : Bool)
    (hrefresh : refreshOldMaidIfIdle now st = st)
    (hpr : pruneOldMaidPlayersInTransaction now st = (st, 0)) :
    totalCirculation (reportOldMaidPresence now st playerName b)
      = totalCirculation st := by
  unfold reportOldMaidPresence
  rw [hrefresh]
  simp only []
  rw [hpr]
  simp only []
  split
  · rfl
  · rename_i index hfoundx
    split
    · rfl
    · have hc : index < st.players.length :=
        (List.findIdx?_eq_some_iff_getElem.mp hfoundx).1
      split
      · simp only [totalCirculation]
        exact sum_set1 st.players index _ hc (by simp [playerCardCount])
      · simp only [totalCirculation]
        exact sum_set1 st.players index _ hc (by simp [playerCardCount])

theorem pruneOldMaid_noop_players (players : List OldMaidPlayer)
    (lastSeen : LastSeenMap) (now thr : Int)
    (hnr : (pruneOldMaidPlayers players lastSeen now thr).2.1 = [])
    (hnc : (pruneOldMaidPlayers players lastSeen now thr).2.2 = false) :
    (pruneOldMaidPlayers players lastSeen now thr).1 = players := by
  induction players with
  | nil => rfl
  | cons p rest ih =>
    rw [pruneOldMaidPlayers] at hnr hnc ⊢
    rcases hs : resolveLastSeenSeconds lastSeen p.name with _ | t
    · simp only [hs] at hnr
      cases hnr
    · simp only [hs] at hnr hnc ⊢
      by_cases hgt : now - t > thr
      · rw [if_pos hgt] at hnr
        cases hnr
      · rw [if_neg hgt] at hnr hnc ⊢
        obtain ⟨h1, h2⟩ := Bool.or_eq_false_iff.mp hnc
        have hw : (decide (now - t ≥ max 10 (thr - IDLE_WARNING_BUFFER_SECONDS))
            && decide (now - t ≤ thr)) = p.idleWarning := by
          have h3 := bne_eq_false_iff_eq.mp h2
          exact h3.symm
        rw [if_pos (by rw [hw]; simp), ih hnr h1]

theorem totalCirculation_prune (now : Int) (st : OldMaidSessionRecord) :
    totalCirculation (pruneOldMaidPlayersInTransaction now st).1
      = ((pruneOldMaidPlayers st.players st.playerLastSeen now
          (if st.status = .waiting then WAITING_ROOM_PLAYER_SECONDS
           else STALE_PLAYER_SECONDS)).1.map playerCardCount).sum := by
  unfold pruneOldMaidPlayersInTransaction
  simp only []
  by_cases hw : st.status = SessionStatus.waiting
  · rw [if_pos hw]
    split
    · rename_i hno
      rw [totalCirculation, pruneOldMaid_noop_players _ _ _ _ hno.1 hno.2]
    · split
      · split
        · simp [totalCirculation]
        · split
          · simp [totalCirculation]
          · simp [totalCirculation]
      · split
        · simp [totalCirculation]
        · simp [totalCirculation]
  · rw [if_neg hw]
    split
    · rename_i hno
      rw [totalCirculation, pruneOldMaid_noop_players _ _ _ _ hno.1 hno.2]
    · split
      · split
        · simp [totalCirculation]
        · split
          · simp [totalCirculation]
          · simp [totalCirculation]
      · split
        · simp [totalCirculation]
        · simp [totalCirculation]

/-- A three-player waiting room with everyone online and recently seen. -/
def omW3State : OldMaidSessionRecord :=
  { status := .waiting
    players :=
      [ { name := "a", displayName := none, hand := [], discards := [],
          isOnline := true, isSafe := false, idleWarning := false },
        { name := "b", displayName := none, hand := [], discards := [],
          isOnline := true, isSafe := false, idleWarning := false },
        { name := "c", displayName := none, hand := [], discards := [],
          isOnline := true, isSafe := false, idleWarning := false } ]
    turnIndex := 0
    createdAt := 0
    updatedAt := 900
    loser := none
    playerLastSeen := [("a", 900), ("b", 900), ("c", 900)]
    shuffleLock := none }

/-- The session after dealing `oldMaidBaseDeck` to the three players. -/
def omChain1 : OldMaidSessionRecord :=
  (startOldMaidSession 1000 oldMaidBaseDeck omW3State "a").1

/-- … after "a" draws from the next card-holder at t = 1100. -/
def omChain2 : OldMaidSessionRecord :=
  (drawOldMaidCard 1100 omChain1 "a" (.finite 0) 0).1

/-- … after "b" draws at t = 1150 ("c" last seen at the 1000s deal). -/
def omChain3 : OldMaidSessionRecord :=
  (drawOldMaidCard 1150 omChain2 "b" (.finite 0) 0).1

/-- … after the staleness prune at t = 1200 removes "c". -/
def omChain4 : OldMaidSessionRecord :=
  (pruneOldMaidPlayersInTransaction 1200 omChain3).1

/-- Counterexample to C2 as stated: the deal and both draws keep all 52
cards in circulation, but the staleness prune at t = 1200 deletes "c"
together with the 16 cards in their hand and discards — the total drops
to 36 while the game stays active. -/
theorem oldMaidConservation_counterexample :
    totalCirculation omChain1 = 52 ∧
    totalCirculation omChain2 = 52 ∧
    totalCirculation omChain3 = 52 ∧
    omChain4.status = .active ∧
    totalCirculation omChain4 = 36 := by
  decide

/-- **C2 (amended).** `Σ|hand| + 2·Σ|discards|` equals 52 after the deal
(for any 52-card deck) and is preserved by every `drawOldMaidCard`,
`shuffleOldMaidHand` and `reportOldMaidPresence` call; staleness pruning
instead truncates the total to the surviving players' cards, removing a
pruned player's hand and discards from circulation. -/
theorem oldMaidConservation_spec (now nowMs : Int)
    (st : OldMaidSessionRecord) (playerName : String)
    (pos : CardPositionInput) (randPick : Nat)
    (shuffledDeck permutedHand : List Card) (b : Bool)
    (hpr : pruneOldMaidPlayersInTransaction now st = (st, 0)) :
    (∀ stout, shuffledDeck.length = 52 →
      startOldMaidSession now shuffledDeck st playerName = (stout, .ok ()) →
      totalCirculation stout = 52) ∧
    totalCirculation (drawOldMaidCard now st playerName pos randPick).1
      = totalCirculation st ∧
    ((∀ idx, st.players.findIdx? (fun p => p.name == playerName) = some idx →
        permutedHand.length
          = (st.players.getD idx defaultOldMaidPlayer).hand.length) →
      totalCirculation (shuffleOldMaidHand now nowMs st playerName
        permutedHand).1 = totalCirculation st) ∧
    (refreshOldMaidIfIdle now st = st →
      totalCirculation (reportOldMaidPresence now st playerName b)
        = totalCirculation st) ∧
    (∀ st2 : OldMaidSessionRecord,
      totalCirculation (pruneOldMaidPlayersInTransaction now st2).1
        = ((pruneOldMaidPlayers st2.players st2.playerLastSeen now
            (if st2.status = .waiting then WAITING_ROOM_PLAYER_SECONDS
             else STALE_PLAYER_SECONDS)).1.map playerCardCount).sum) := by
  refine ⟨?_, totalCirculation_draw now st playerName pos randPick hpr,
    fun hlen => totalCirculation_shuffle now nowMs st playerName permutedHand
      hpr hlen,
    fun hrefresh => totalCirculation_presence now st playerName b hrefresh hpr,
    fun st2 => totalCirculation_prune now st2⟩
  intro stout hlen hok
  exact (startOldMaid_total now shuffledDeck st playerName stout hok).trans
    hlen

/-- Witness for the amended C2: a concrete draw on `omTwoPlayerState`
keeps the three dealt cards in circulation. -/
theorem oldMaidConservation_spec_witness :
    totalCirculation
        (drawOldMaidCard 1000 omTwoPlayerState "a" (.finite 0) 0).1
      = totalCirculation omTwoPlayerState ∧
    totalCirculation omTwoPlayerState = 3 := by
  obtain ⟨-, h2, -, -, -⟩ := oldMaidConservation_spec 1000 0 omTwoPlayerState
    "a" (.finite 0) 0 [] [] true (by decide)
  exact ⟨h2, by decide⟩

end Blarkly
